/-
Verification of the AiPortalDemo testing-tools portal (Streamlit, Python)
against its natural-language specification.

Shallow embedding notes:
* Parsed JSON values (the output of `json.loads`) are modelled by the
  inductive type `Json`.  Python `dict`s are modelled as association
  lists with lookup; `json.loads` never produces duplicate keys, and all
  dictionary operations in the code go through key lookup, which the
  model mirrors with `lookupJ`.
* Python numbers are carried exactly: `int` by `Int`, `float` by `Rat`
  (every concrete float literal is a rational; the claims under
  scrutiny depend only on exact equality tests between numbers).
* Python `==` on parsed JSON values (`pyEq`) compares numbers across
  `bool`/`int`/`float` (True == 1, 1 == 1.0), strings structurally, lists
  element-wise and dicts key-wise.
-/
import Mathlib

namespace AiPortal

/-- Parsed JSON values as produced by Python's `json.loads`:
`None`, `bool`, `int`, `float`, `str`, `list`, `dict`. -/
inductive Json where
  | null : Json
  | bool (b : Bool) : Json
  | int (n : Int) : Json
  | float (q : Rat) : Json
  | str (s : String) : Json
  | arr (l : List Json) : Json
  | obj (l : List (String × Json)) : Json

/-- The Python runtime type of a parsed JSON value, as compared by
`type(obj1) != type(obj2)` (NoneType, bool, int, float, str, list, dict). -/
def typeTag : Json → Nat
  | .null => 0
  | .bool _ => 1
  | .int _ => 2
  | .float _ => 3
  | .str _ => 4
  | .arr _ => 5
  | .obj _ => 6

/-- Dictionary key lookup, `d[key]` / `key in d` on a Python dict. -/
def lookupJ : List (String × Json) → String → Option Json
  | [], _ => none
  | (k, v) :: rest, key => if k = key then some v else lookupJ rest key

/-- The key list of a Python dict (`d.keys()`). -/
def keysJ (l : List (String × Json)) : List String :=
  l.map Prod.fst

/-- One enumeration of `set(obj1.keys()) | set(obj2.keys())`; Python set
iteration order is unspecified, so we fix a concrete enumeration of the
union (membership is what the claims speak about). -/
def allKeys (l1 l2 : List (String × Json)) : List String :=
  (keysJ l1 ++ keysJ l2).dedup

/-- The path built for a dict member: `f"{path}.{key}" if path else str(key)`. -/
def keyPath (path key : String) : String :=
  if path = "" then key else path ++ "." ++ key

/-- The path built for a list member: `f"{path}[{i}]"`. -/
def arrPath (path : String) (i : Nat) : String :=
  path ++ "[" ++ toString i ++ "]"

theorem sizeOf_lt_of_getElemJ {l : List Json} {i : Nat} {a : Json}
    (h : l[i]? = some a) : sizeOf a < sizeOf l := by
  have hm : a ∈ l := by
    have := List.getElem?_eq_some.1 h
    obtain ⟨hi, hget⟩ := this
    exact hget ▸ List.getElem_mem hi
  exact List.sizeOf_lt_of_mem hm

theorem sizeOf_lt_of_lookupJ {l : List (String × Json)} {k : String} {v : Json}
    (h : lookupJ l k = some v) : sizeOf v < sizeOf l := by
  induction l with
  | nil => simp [lookupJ] at h
  | cons hd tl ih =>
    obtain ⟨k1, v1⟩ := hd
    by_cases hk : k1 = k
    · simp [lookupJ, hk] at h
      subst h
      simp
      omega
    · simp [lookupJ, hk] at h
      have := ih h
      simp
      omega

/-- Python `==` on parsed JSON values.  Booleans, ints and floats compare by
numeric value (`True == 1`, `1 == 1.0`); lists compare element-wise; dicts
compare as key-value maps. -/
def pyEq : Json → Json → Bool
  | .arr l1, .arr l2 =>
    l1.length == l2.length &&
    (List.range l1.length).all (fun i =>
      if h1 : i < l1.length then
        if h2 : i < l2.length then pyEq l1[i] l2[i]
        else false
      else false)
  | .obj l1, .obj l2 =>
    ((keysJ l1).all (fun k =>
      if h1 : (lookupJ l1 k).isSome then
        if h2 : (lookupJ l2 k).isSome then
          pyEq ((lookupJ l1 k).get h1) ((lookupJ l2 k).get h2)
        else false
      else false))
    && (keysJ l2).all (fun k => (lookupJ l1 k).isSome)
  | .null, .null => true
  | .str s1, .str s2 => s1 == s2
  | .bool b1, .bool b2 => b1 == b2
  | .bool b1, .int n2 => (if b1 then (1 : Int) else 0) == n2
  | .bool b1, .float q2 => ((if b1 then (1 : Int) else 0 : Int) : Rat) == q2
  | .int n1, .bool b2 => n1 == (if b2 then (1 : Int) else 0)
  | .int n1, .int n2 => n1 == n2
  | .int n1, .float q2 => ((n1 : Rat)) == q2
  | .float q1, .bool b2 => q1 == ((if b2 then (1 : Int) else 0 : Int) : Rat)
  | .float q1, .int n2 => q1 == ((n2 : Rat))
  | .float q1, .float q2 => q1 == q2
  | _, _ => false
termination_by a _ => sizeOf a
decreasing_by
  · have hlt : sizeOf l1[i] < sizeOf l1 :=
      List.sizeOf_lt_of_mem (List.getElem_mem h1)
    simp
    omega
  · have hlt : sizeOf ((lookupJ l1 k).get h1) < sizeOf l1 :=
      sizeOf_lt_of_lookupJ (Option.some_get h1).symm
    simp
    omega

/-- `find_diff_in_json` from `app_pages/components/json_diff.py`:
recursively collects the difference paths between two parsed JSON values. -/
def find_diff_in_json (o1 o2 : Json) (path : String) : List String :=
  if typeTag o1 ≠ typeTag o2 then [path]
  else
    match o1, o2 with
    | .obj l1, .obj l2 =>
      (allKeys l1 l2).flatMap (fun k =>
        if h1 : (lookupJ l1 k).isSome then
          if h2 : (lookupJ l2 k).isSome then
            if pyEq ((lookupJ l1 k).get h1) ((lookupJ l2 k).get h2) then []
            else find_diff_in_json ((lookupJ l1 k).get h1) ((lookupJ l2 k).get h2)
              (keyPath path k)
          else [keyPath path k ++ " [deleted]"]
        else [keyPath path k ++ " [added]"])
    | .arr l1, .arr l2 =>
      (List.range (max l1.length l2.length)).flatMap (fun i =>
        if h1 : i < l1.length then
          if h2 : i < l2.length then
            if pyEq l1[i] l2[i] then []
            else find_diff_in_json l1[i] l2[i] (arrPath path i)
          else [arrPath path i ++ " [deleted]"]
        else [arrPath path i ++ " [added]"])
    | a, b => if pyEq a b then [] else [path]
termination_by sizeOf o1
decreasing_by
  · have hlt : sizeOf ((lookupJ l1 k).get h1) < sizeOf l1 :=
      sizeOf_lt_of_lookupJ (Option.some_get h1).symm
    simp
    omega
  · have hlt : sizeOf l1[i] < sizeOf l1 :=
      List.sizeOf_lt_of_mem (List.getElem_mem h1)
    simp
    omega

/-! ### Timestamp converter (`app_pages/components/timestamp_converter.py`)

Date-times are represented by their exact epoch offset in seconds as a
rational number: `datetime.fromtimestamp` and `datetime.timestamp` are
mutually inverse on the values the tool produces (microsecond-exact),
so the composition of the two tabs is `t ↦ int(t / factor) * factor`
where `int` is Python truncation toward zero. -/

/-- The unit selectboxes of both tabs. -/
inductive TsUnit where
  | seconds
  | milliseconds
  | microseconds
deriving DecidableEq

/-- Scale factor between the selected unit and seconds. -/
def unitFactor : TsUnit → Int
  | .seconds => 1
  | .milliseconds => 1000
  | .microseconds => 1000000

/-- Python `int()` applied to an exact number: truncation toward zero. -/
def pyIntTrunc (q : Rat) : Int :=
  if 0 ≤ q then ⌊q⌋ else ⌈q⌉

/-- Tab "Timestamp → DateTime": the epoch seconds of the produced
date-time (`timestamp_input / 1000` for ms, `/ 1000000` for µs). -/
def timestampToDatetime (t : Int) (u : TsUnit) : Rat :=
  (t : Rat) / ((unitFactor u : Int) : Rat)

/-- Tab "DateTime → Timestamp": `int(dt.timestamp())` scaled back to the
selected output unit. -/
def datetimeToTimestamp (s : Rat) (u : TsUnit) : Int :=
  pyIntTrunc s * unitFactor u

/-- Converting a timestamp to a date-time and back within the same unit. -/
def timestampRoundTrip (t : Int) (u : TsUnit) : Int :=
  datetimeToTimestamp (timestampToDatetime t u) u

/-! ### Excel tool (`app_pages/components/excel_tool.py`)

The file system handed to the batcher is modelled by the tree type
`Dir`: a directory has a name, the names of the regular files directly
inside it, and its subdirectories.  Path objects are modelled by their
name strings; `str(path)` comparisons and `path.name` sort keys are
Python string comparisons, i.e. lexicographic on code points with a
proper prefix ordered first. -/

theorem sizeOf_lt_of_getElemOpt {α : Type} [SizeOf α] {l : List α} {i : Nat} {a : α}
    (h : l[i]? = some a) : sizeOf a < sizeOf l := by
  have hm : a ∈ l := by
    obtain ⟨hi, hget⟩ := List.getElem?_eq_some.1 h
    exact hget ▸ List.getElem_mem hi
  exact List.sizeOf_lt_of_mem hm

/-- ASCII lowercasing of one character (`str.lower()`; every name the
tool compares case-insensitively is ASCII). -/
def pyLowerChar (c : Char) : Char :=
  if 'A' ≤ c ∧ c ≤ 'Z' then Char.ofNat (c.toNat + 32) else c

/-- `str.lower()` on ASCII strings. -/
def pyLower (s : String) : String :=
  String.mk (s.data.map pyLowerChar)

/-- Python string comparison key: the list of code points. -/
def nameKey (s : String) : List Nat :=
  s.data.map Char.toNat

/-- Python `≤` on strings (lexicographic by code point, a proper prefix
compares smaller), used through `sort(key=lambda x: x.name)`. -/
def nameLe (a b : String) : Prop :=
  nameKey a ≤ nameKey b

instance : DecidableRel nameLe := fun a b =>
  inferInstanceAs (Decidable (nameKey a ≤ nameKey b))

instance : IsTotal String nameLe := ⟨fun a b => le_total (nameKey a) (nameKey b)⟩

instance : IsTrans String nameLe := ⟨fun _ _ _ h1 h2 => le_trans h1 h2⟩

/-- `SUPPORTED_IMAGE_FORMATS` from `excel_tool.py`. -/
def SUPPORTED_IMAGE_FORMATS : List String :=
  [".png", ".jpg", ".jpeg", ".gif", ".bmp", ".tiff", ".webp"]

/-- Index of the last `'.'` in a list of characters (`str.rfind('.')`),
`none` when absent. -/
def rfindDot : List Char → Option Nat
  | [] => none
  | c :: rest =>
    match rfindDot rest with
    | some i => some (i + 1)
    | none => if c = '.' then some 0 else none

/-- `pathlib.PurePath.suffix` of a file name: the part from the last dot,
empty when the name has no dot, starts with its only dot, or ends in a
dot. -/
def pySuffix (fileName : String) : String :=
  let cs := fileName.data
  match rfindDot cs with
  | some i => if 0 < i ∧ i < cs.length - 1 then String.mk (cs.drop i) else ""
  | none => ""

/-- The image-format test of `get_image_files`:
`file_path.suffix.lower() in SUPPORTED_IMAGE_FORMATS`. -/
def isImageFileName (fileName : String) : Bool :=
  SUPPORTED_IMAGE_FORMATS.contains (pyLower (pySuffix fileName))

/-- `get_image_files` applied to the regular files of an existing
directory: keep supported image files, sorted by file name. -/
def imageFilesOf (files : List String) : List String :=
  List.insertionSort nameLe (files.filter isImageFileName)

/-- `get_image_files`: the empty list when the directory does not exist,
otherwise the image files of the directory sorted by name. -/
def get_image_files (dirListing : Option (List String)) : List String :=
  match dirListing with
  | none => []
  | some files => imageFilesOf files

/-- A directory tree: name, regular files directly inside, subdirectories. -/
inductive Dir where
  | mk (name : String) (files : List String) (subs : List Dir)

def Dir.name : Dir → String
  | .mk n _ _ => n

def Dir.files : Dir → List String
  | .mk _ f _ => f

def Dir.subs : Dir → List Dir
  | .mk _ _ s => s

/-- `get_subdirectories`: the subdirectories sorted by name. -/
def get_subdirectories (ds : List Dir) : List Dir :=
  List.insertionSort (fun d1 d2 => nameLe d1.name d2.name) ds

/-- The default `ignore_dirs` set of `find_image_folders`. -/
def IGNORE_DIRS : List String :=
  ["_macosx", "__macosx", ".ds_store", ".git", ".svn", "thumbs.db"]

theorem sizeOf_subs_lt (d : Dir) : sizeOf d.subs < sizeOf d := by
  cases d
  simp [Dir.subs]

theorem mem_get_subdirectories {d : Dir} {ds : List Dir} (h : d ∈ get_subdirectories ds) :
    d ∈ ds :=
  (List.perm_insertionSort _ ds).mem_iff.1 h

/-- `_scan_directory` inside `find_image_folders`: depth-first scan that
appends, for each non-ignored directory that directly contains images
while none of its non-ignored immediate subdirectories do, the pair of
its full path string and the directory itself. -/
def scanDir (path : String) (d : Dir) : List (String × Dir) :=
  if pyLower d.name ∈ IGNORE_DIRS then []
  else
    let subdirs := get_subdirectories d.subs
    let subResults := (List.range subdirs.length).flatMap (fun i =>
      if h1 : i < subdirs.length then
        if pyLower (subdirs.get ⟨i, h1⟩).name ∈ IGNORE_DIRS then []
        else scanDir (path ++ "/" ++ (subdirs.get ⟨i, h1⟩).name) (subdirs.get ⟨i, h1⟩)
      else [])
    let hasImageSubdirs := subdirs.any (fun sub =>
      if pyLower sub.name ∈ IGNORE_DIRS then false
      else !(imageFilesOf sub.files).isEmpty)
    subResults ++
      (if !(imageFilesOf d.files).isEmpty && !hasImageSubdirs then [(path, d)] else [])
termination_by sizeOf d
decreasing_by
  have h2 : (get_subdirectories d.subs).get ⟨i, h1⟩ ∈ get_subdirectories d.subs :=
    List.get_mem _ _ h1
  have h3 : sizeOf ((get_subdirectories d.subs).get ⟨i, h1⟩) < sizeOf d.subs :=
    List.sizeOf_lt_of_mem (mem_get_subdirectories h2)
  have h4 := sizeOf_subs_lt d
  omega

/-- `find_image_folders`: the scanned image folders sorted by full path
string. -/
def find_image_folders (root : Dir) : List (String × Dir) :=
  List.insertionSort (fun p1 p2 => nameLe p1.1 p2.1) (scanDir root.name root)

/-- Whether any (possibly ignored) directory of the tree directly
contains a supported image file. -/
def hasAnyImage (d : Dir) : Bool :=
  !(imageFilesOf d.files).isEmpty ||
    (List.range d.subs.length).any (fun i =>
      if h1 : i < d.subs.length then hasAnyImage (d.subs.get ⟨i, h1⟩) else false)
termination_by sizeOf d
decreasing_by
  have h3 : sizeOf (d.subs.get ⟨i, h1⟩) < sizeOf d.subs :=
    List.sizeOf_lt_of_mem (List.get_mem _ _ h1)
  have h4 := sizeOf_subs_lt d
  omega

/-- Fuelled (structurally recursive, hence kernel-computable) version of
`scanDir`; agrees with `scanDir` for any fuel at least `sizeOf` of the
tree (`scanDirFuel_eq`), and is used to evaluate concrete trees. -/
def scanDirFuel : Nat → String → Dir → List (String × Dir)
  | 0, _, _ => []
  | fuel + 1, path, d =>
    if pyLower d.name ∈ IGNORE_DIRS then []
    else
      let subdirs := get_subdirectories d.subs
      let subResults := (List.range subdirs.length).flatMap (fun i =>
        if h1 : i < subdirs.length then
          if pyLower (subdirs.get ⟨i, h1⟩).name ∈ IGNORE_DIRS then []
          else scanDirFuel fuel (path ++ "/" ++ (subdirs.get ⟨i, h1⟩).name)
            (subdirs.get ⟨i, h1⟩)
        else [])
      let hasImageSubdirs := subdirs.any (fun sub =>
        if pyLower sub.name ∈ IGNORE_DIRS then false
        else !(imageFilesOf sub.files).isEmpty)
      subResults ++
        (if !(imageFilesOf d.files).isEmpty && !hasImageSubdirs then [(path, d)] else [])

/-- Fuelled version of `hasAnyImage`. -/
def hasAnyImageFuel : Nat → Dir → Bool
  | 0, _ => false
  | fuel + 1, d =>
    !(imageFilesOf d.files).isEmpty ||
      (List.range d.subs.length).any (fun i =>
        if h1 : i < d.subs.length then hasAnyImageFuel fuel (d.subs.get ⟨i, h1⟩) else false)

/-- `DEFAULT_CONFIG['sheet_name_max_length']`. -/
def sheet_name_max_length : Nat := 31

/-- The characters `sanitize_sheet_name` replaces with underscores. -/
def EXCEL_INVALID_CHARS : List Char :=
  ['\\', '/', '*', '?', ':', '[', ']']

/-- Python whitespace stripped by `str.strip()` (the ASCII whitespace
characters; the sheet names in play are ASCII). -/
def pyIsSpace (c : Char) : Bool :=
  [' ', '\t', '\n', '\x0b', '\x0c', '\r'].contains c

/-- `str.strip()`: drop leading and trailing whitespace. -/
def pyStrip (cs : List Char) : List Char :=
  ((cs.dropWhile pyIsSpace).reverse.dropWhile pyIsSpace).reverse

/-- `sanitize_sheet_name`: replace Excel-invalid characters by `'_'`,
truncate to 31 characters, fall back to `'Sheet'` when the result strips
to nothing, and return the stripped name. -/
def sanitize_sheet_name (name : String) : String :=
  let replaced := name.data.map (fun c => if EXCEL_INVALID_CHARS.contains c then '_' else c)
  let truncated := replaced.take sheet_name_max_length
  let chosen := if (pyStrip truncated).isEmpty then "Sheet".data else truncated
  String.mk (pyStrip chosen)

/-- `get_or_create_sheet` restricted to its effect on the workbook's
sheet-name list: `find_sheet_by_name` is case-insensitive, and a missing
sheet is appended under the sanitized name. -/
def get_or_create_sheet_names (sheets : List String) (folderName : String) : List String :=
  let clean := sanitize_sheet_name folderName
  if sheets.any (fun s => pyLower s == pyLower clean) then sheets
  else sheets ++ [clean]

/-- The per-folder loop of `render_excel_tool` restricted to the sheet
names it creates (each folder with images gets `get_or_create_sheet` of
its folder name). -/
def processImageFolders (folders : List (String × Dir)) : List String :=
  folders.foldl (fun sheets pd =>
    if (imageFilesOf pd.2.files).isEmpty then sheets
    else get_or_create_sheet_names sheets pd.2.name) []

/-- The `total_images` count of `render_excel_tool`. -/
def total_images (folders : List (String × Dir)) : Nat :=
  folders.foldl (fun n pd => n + (imageFilesOf pd.2.files).length) 0

/-- The sheet names of the workbook after `render_excel_tool` processes a
freshly created workbook (`create_workbook` removes the default sheet, so
the workbook starts with no sheets; nothing is added when no image
folder was found or no image was counted). -/
def excelWorkbookSheets (root : Dir) : List String :=
  let folders := find_image_folders root
  if folders.isEmpty then []
  else if total_images folders = 0 then []
  else processImageFolders folders

/-- The cumulative effect of `get_or_create_sheet` on an initially empty
workbook, over a list of requested sheet names: one worksheet per
distinct (case-insensitively compared) sanitized name, named by its
first occurrence. -/
def dedupSheetNames (names : List String) : List String :=
  names.foldl get_or_create_sheet_names []

/-- Round a rational to the nearest integer, ties to even (the IEEE-754
default rounding of the significand). -/
def roundHalfEven (x : Rat) : Int :=
  if x - ⌊x⌋ < 1/2 then ⌊x⌋
  else if 1/2 < x - ⌊x⌋ then ⌊x⌋ + 1
  else if 2 ∣ ⌊x⌋ then ⌊x⌋ else ⌊x⌋ + 1

/-- The exact rational value of the IEEE-754 binary64 double nearest to a
positive rational `q`: the 53-bit significand `q * 2 ^ (52 - e)` (where
`e = Int.log 2 q` is the binary exponent, so the significand lies in
`[2^52, 2^53]`) is rounded to nearest, ties to even, and scaled back.
The model keeps the exponent unbounded — pixel-dimension arithmetic never
reaches the subnormal or overflow range of a real double — and maps
nonpositive inputs to 0 (the only nonpositive value the program's
divisions and multiplications of nonnegative dimensions can produce). -/
def roundB64 (q : Rat) : Rat :=
  if q ≤ 0 then 0
  else ((roundHalfEven (q * 2 ^ (52 - Int.log 2 q)) : Int) : Rat) * 2 ^ (Int.log 2 q - 52)

/-- Python float division `a / b`: the exact quotient, correctly rounded
to binary64. -/
def pyFloatDiv (a b : Rat) : Rat := roundB64 (a / b)

/-- Python float multiplication `a * b` (with exactly representable
operands): the exact product, correctly rounded to binary64. -/
def pyFloatMul (a b : Rat) : Rat := roundB64 (a * b)

/-- Image resizing rule of `ImageProcessor.resize_image`, on the pixel
dimensions.  `fixed_width`/`fixed_height` are 0 when unset (Python
`None` and `0` are both falsy in the `if self.fixed_width` tests, and
the value is only read when truthy).  The scale factors and the scaled
dimensions are Python floats, so every `/` and `*` rounds its exact
rational result to binary64 (`pyFloatDiv`/`pyFloatMul`); `int()`
truncates toward zero (`pyIntTrunc`).  Dimension-to-float conversion is
exact for dimensions below `2^53`. -/
def resize_image (max_width max_height fixed_width fixed_height w h : Nat) : Nat × Nat :=
  if fixed_width ≠ 0 ∧ fixed_height ≠ 0 then (fixed_width, fixed_height)
  else if fixed_width ≠ 0 then
    let scale : Rat := pyFloatDiv (fixed_width : Rat) (w : Rat)
    (fixed_width, (pyIntTrunc (pyFloatMul (h : Rat) scale)).toNat)
  else if fixed_height ≠ 0 then
    let scale : Rat := pyFloatDiv (fixed_height : Rat) (h : Rat)
    ((pyIntTrunc (pyFloatMul (w : Rat) scale)).toNat, fixed_height)
  else
    let scale_w : Rat := if max_width < w then pyFloatDiv (max_width : Rat) (w : Rat) else 1
    let scale_h : Rat := if max_height < h then pyFloatDiv (max_height : Rat) (h : Rat) else 1
    let scale := min (min scale_w scale_h) 1
    if scale < 1 then
      ((pyIntTrunc (pyFloatMul (w : Rat) scale)).toNat,
       (pyIntTrunc (pyFloatMul (h : Rat) scale)).toNat)
    else (w, h)

/-! #### `ExcelProcessor.add_image_to_sheet` state model

The workbook state tracked by the claims: per sheet the written cell
values, the anchored images, the row heights, and the column-A width;
plus the processor's `current_row` map.  `resize_image` on an image file
either raises (unreadable image, modelled by `dims = none`) or yields
the resized dimensions. -/

/-- An image file on disk: its name and, when readable, its pixel
dimensions (`none` models a file for which `PIL` raises). -/
structure ImgFile where
  name : String
  dims : Option (Nat × Nat)

/-- One worksheet's state. -/
structure SheetData where
  cells : List ((Nat × Nat) × String)
  images : List (Nat × String × Nat × Nat)
  rowHeights : List (Nat × Rat)
  colWidthA : Rat
deriving DecidableEq

/-- The `ExcelProcessor` state used by `add_image_to_sheet`. -/
structure Proc where
  workbook : Option (List (String × SheetData))
  current_row : List (String × Nat)
  header_rows : Nat
  spacing_rows : Nat
  show_titles : Bool
  max_width : Nat
  max_height : Nat
  fixed_width : Nat
  fixed_height : Nat
deriving DecidableEq

/-- `ImageProcessor.resize_image` on an image file: raises (`none`) on an
unreadable file, otherwise resizes per the configured rule. -/
def resize_image_file (p : Proc) (img : ImgFile) : Option (Nat × Nat) :=
  img.dims.map (fun wh =>
    resize_image p.max_width p.max_height p.fixed_width p.fixed_height wh.1 wh.2)

/-- Association-list lookup by exact key. -/
def lookupA {β : Type} : List (String × β) → String → Option β
  | [], _ => none
  | (k, v) :: rest, key => if k = key then some v else lookupA rest key

/-- Association-list update (insert or overwrite). -/
def setA {β : Type} : List (String × β) → String → β → List (String × β)
  | [], key, v => [(key, v)]
  | (k, w) :: rest, key, v =>
    if k = key then (k, v) :: rest else (k, w) :: setA rest key v

/-- Natural-number association-list update. -/
def setN {β : Type} : List (Nat × β) → Nat → β → List (Nat × β)
  | [], key, v => [(key, v)]
  | (k, w) :: rest, key, v =>
    if k = key then (k, v) :: rest else (k, w) :: setN rest key v

/-- Cell update `sheet.cell(row, col).value = v`. -/
def setCell (cells : List ((Nat × Nat) × String)) (rc : Nat × Nat) (v : String) :
    List ((Nat × Nat) × String) :=
  match cells with
  | [] => [(rc, v)]
  | (k, w) :: rest => if k = rc then (k, v) :: rest else (k, w) :: setCell rest rc v

/-- `find_sheet_by_name`: case-insensitive search over the workbook's
sheet names. -/
def find_sheet_by_name (wb : List (String × SheetData)) (target : String) : Option String :=
  (wb.map Prod.fst).find? (fun s => pyLower s == pyLower target)

/-- `sheet.max_row` (openpyxl reports at least 1). -/
def sheetMaxRow (s : SheetData) : Nat :=
  max 1 ((s.cells.map (fun c => c.1.1)).foldr max 0)

/-- `any(cell.value for cell in sheet[row])`: some cell of the row holds
a truthy (non-empty) value. -/
def rowHasValue (s : SheetData) (row : Nat) : Bool :=
  s.cells.any (fun c => c.1.1 == row && c.2 != "")

/-- The cursor-initialisation scan of `add_image_to_sheet`: walk rows
`max_row, max_row-1, …, max(1, max_row-5)+1` and place the cursor after
the first row holding a value, else after the header rows. -/
def initCursor (s : SheetData) (header_rows : Nat) : Nat :=
  let mr := sheetMaxRow s
  let lo := max 1 (mr - 5)
  let rows := (List.range (mr - lo)).map (fun j => mr - j)
  match rows.find? (fun r => rowHasValue s r) with
  | some r => r + 1
  | none => header_rows + 1

/-- `add_image_to_sheet`: returns the final processor state.  Exceptions
from `resize_image` are caught and logged, so the function is total and
the failure branch returns without the `try`-block's mutations. -/
def add_image_to_sheet (p : Proc) (sheet_name : String) (img : ImgFile)
    (image_title : Option String) : Proc :=
  match p.workbook with
  | none => p
  | some wb =>
    match find_sheet_by_name wb sheet_name with
    | none => p
    | some actual =>
      match lookupA wb actual with
      | none => p
      | some sheet =>
        let p1 : Proc :=
          if (lookupA p.current_row actual).isSome then p
          else { p with current_row := setA p.current_row actual (initCursor sheet p.header_rows) }
        let current_row := (lookupA p1.current_row actual).getD (p.header_rows + 1)
        match resize_image_file p img with
        | none => p1
        | some (width, height) =>
          let withTitle :=
            p.show_titles = true ∧ image_title.getD "" ≠ ""
          let sheet1 :=
            if withTitle then
              { sheet with
                cells := setCell sheet.cells (current_row, 1) (image_title.getD "")
                rowHeights := setN sheet.rowHeights current_row 40
                colWidthA := if sheet.colWidthA < 60 then 60 else sheet.colWidthA }
            else sheet
          let row1 := if withTitle then current_row + 1 else current_row
          let rowHeightPoints : Rat := (height : Rat) * (3 / 4)
          let extraSpace : Rat := if height < 300 then 30 else if height < 600 then 40 else 50
          let rowHeight0 := rowHeightPoints + extraSpace
          let rowHeight := if rowHeight0 < 120 then 120 else rowHeight0
          let sheet2 :=
            { sheet1 with
              images := sheet1.images ++ [(row1, img.name, width, height)]
              rowHeights := setN sheet1.rowHeights row1 rowHeight }
          let nextRow := row1 + 1 + p.spacing_rows
          { p1 with
            workbook := some (setA wb actual sheet2)
            current_row := setA p1.current_row sheet_name nextRow }

/-- The image loop of `process_directory` / `render_excel_tool`: add each
image (with its title) in turn. -/
def addImagesFold (p : Proc) (sheet_name : String) (imgs : List (ImgFile × Option String)) :
    Proc :=
  imgs.foldl (fun st it => add_image_to_sheet st sheet_name it.1 it.2) p

/-! ### Role-gated navigation (`Home.py`) -/

/-- The selectable user roles. -/
inductive Role where
  | manualTester
  | automationTester
  | ba
deriving DecidableEq

/-- `ROLE_PERMISSIONS` from `Home.py`. -/
def ROLE_PERMISSIONS : Role → List Nat
  | .manualTester => [1, 2, 5, 6]
  | .automationTester => [2, 3, 5, 6]
  | .ba => [2, 4, 5, 6]

/-- The `file` entry of `PAGE_INFO` for each page number (all six point
into `app_pages/`). -/
def PAGE_INFO_file : Nat → String
  | 1 => "app_pages/1_🧪_Generate_Testcases.py"
  | 2 => "app_pages/2_💬_Guideline_Chatbot.py"
  | 3 => "app_pages/3_⚙️_AI_Automation.py"
  | 4 => "app_pages/4_📊_BA工具集.py"
  | 5 => "app_pages/5_🛠️_Tools.py"
  | 6 => "app_pages/6_🤖_AI_Assistant.py"
  | _ => ""

/-- The Python files actually present in the repository, relative to the
entrypoint `Home.py`'s directory (`src/`): `app_pages/` holds only pages
2, 3 and 5; pages 1, 4 and 6 sit under `pages/` instead. -/
def REPO_PAGE_FILES : List String :=
  ["Home.py",
   "app_pages/2_💬_Guideline_Chatbot.py",
   "app_pages/3_⚙️_AI_Automation.py",
   "app_pages/5_🛠️_Tools.py",
   "app_pages/components/__init__.py",
   "app_pages/components/api_tester.py",
   "app_pages/components/excel_tool.py",
   "app_pages/components/json_beautifier.py",
   "app_pages/components/json_diff.py",
   "app_pages/components/mermaid_diagram.py",
   "app_pages/components/timestamp_converter.py",
   "app_pages/components/tool_download.py",
   "pages/1_🧪_Generate_Testcases.py",
   "pages/4_📊_BA工具集.py",
   "pages/5_🛠️_Tools.py",
   "pages/6_🤖_AI_Assistant.py"]

/-- `st.Page(file, ...)`: Streamlit validates that the page file exists
(relative to the entrypoint's directory) and raises `StreamlitAPIError`
otherwise; the error is modelled as `Except.error` carrying the missing
path. -/
def stPage (file : String) : Except String String :=
  if file ∈ REPO_PAGE_FILES then Except.ok file else Except.error file

/-- The page-construction loop of `build_navigation`: build
`st.Page(PAGE_INFO[n]["file"])` for each allowed page number in order;
the first missing file raises out of the loop. -/
def buildPages : List Nat → Except String (List String)
  | [] => Except.ok []
  | n :: rest =>
    match stPage (PAGE_INFO_file n) with
    | Except.error e => Except.error e
    | Except.ok p =>
      match buildPages rest with
      | Except.error e => Except.error e
      | Except.ok ps => Except.ok (p :: ps)

/-- `build_navigation`: `None` when no role is selected, otherwise the
result of constructing the `st.Page` list for
`sorted(ROLE_PERMISSIONS[role])` — which raises (`Except.error`) at the
first page file that does not exist. -/
def build_navigation (userRole : Option Role) : Option (Except String (List String)) :=
  match userRole with
  | none => none
  | some r => some (buildPages (List.insertionSort (· ≤ ·) (ROLE_PERMISSIONS r)))

/-- A navigation entry: the Home page or a page file. -/
inductive Page where
  | home
  | page (file : String)
deriving DecidableEq

/-- The page list given to `st.navigation`: `[home_page] + pages` when
`build_navigation` returned a truthy (non-empty) list, only the Home
page when it returned `None` or an empty list, and the propagated
`StreamlitAPIError` when the page construction raised. -/
def navigation (userRole : Option Role) : Except String (List Page) :=
  match build_navigation userRole with
  | none => Except.ok [Page.home]
  | some (Except.error e) => Except.error e
  | some (Except.ok ps) =>
    Except.ok (if ps.isEmpty then [Page.home] else Page.home :: ps.map Page.page)

/-! ### Concrete instances used in witnesses and counterexamples -/

/-- `json.loads('{"a": true}')`. -/
def jsonV1 : Json := Json.obj [("a", Json.bool true)]

/-- `json.loads('{"a": 1}')`. -/
def jsonV2 : Json := Json.obj [("a", Json.int 1)]

/-- An uploaded tree with two leaf folders, both named `img`, each
directly containing one image. -/
def exTree : Dir :=
  Dir.mk "r" []
    [Dir.mk "a" [] [Dir.mk "img" ["x.png"] []],
     Dir.mk "b" [] [Dir.mk "img" ["y.png"] []]]

/-- An uploaded tree containing no image file at all. -/
def exEmptyTree : Dir := Dir.mk "e" ["readme.txt"] [Dir.mk "sub" ["notes.md"] []]

/-- An empty worksheet. -/
def exSheet : SheetData := ⟨[], [], [], 8⟩

/-- A processor holding one sheet named `img` with a tracked cursor. -/
def exProc : Proc :=
  ⟨some [("img", exSheet)], [("img", 4)], 3, 2, true, 700, 500, 0, 0⟩

/-- An unreadable image file (`PIL.Image.open` raises on it). -/
def exBadImg : ImgFile := ⟨"bad.png", none⟩

/-! ## Theorems -/

/-- C8: the claim fails on this repository's code: `PAGE_INFO` points all
six pages into `app_pages/`, but pages 1, 4 and 6 exist only under
`pages/`, so the `st.Page` construction inside `build_navigation` raises
`StreamlitAPIError` for every role — Manual Tester already at page 1 —
and `build_navigation` never returns a page list; in particular Generate
Test Cases (page 1) is reachable by no one.  Only the no-role navigation
(Home page alone) behaves as claimed. -/
theorem C8_build_navigation_raises :
    (∀ r : Role, ∃ f : String,
      build_navigation (some r) = some (Except.error f) ∧ f ∉ REPO_PAGE_FILES)
    ∧ build_navigation (some Role.manualTester)
        = some (Except.error "app_pages/1_🧪_Generate_Testcases.py")
    ∧ build_navigation (some Role.automationTester)
        = some (Except.error "app_pages/6_🤖_AI_Assistant.py")
    ∧ build_navigation (some Role.ba)
        = some (Except.error "app_pages/4_📊_BA工具集.py")
    ∧ navigation none = Except.ok [Page.home] := by
  refine ⟨?_, rfl, rfl, rfl, rfl⟩
  intro r
  cases r
  · exact ⟨"app_pages/1_🧪_Generate_Testcases.py", rfl, by decide⟩
  · exact ⟨"app_pages/6_🤖_AI_Assistant.py", rfl, by decide⟩
  · exact ⟨"app_pages/4_📊_BA工具集.py", rfl, by decide⟩

theorem pyStrip_subset {c : Char} {l : List Char} (h : c ∈ pyStrip l) : c ∈ l := by
  unfold pyStrip at h
  rw [List.mem_reverse] at h
  have h2 := (List.dropWhile_sublist (l := (l.dropWhile pyIsSpace).reverse)
    (p := pyIsSpace)).subset h
  rw [List.mem_reverse] at h2
  exact (List.dropWhile_sublist (l := l) (p := pyIsSpace)).subset h2

theorem pyStrip_length_le (l : List Char) : (pyStrip l).length ≤ l.length := by
  unfold pyStrip
  rw [List.length_reverse]
  calc ((l.dropWhile pyIsSpace).reverse.dropWhile pyIsSpace).length
      ≤ (l.dropWhile pyIsSpace).reverse.length :=
        (List.dropWhile_sublist _).length_le
    _ = (l.dropWhile pyIsSpace).length := List.length_reverse _
    _ ≤ l.length := (List.dropWhile_sublist _).length_le

theorem pyStrip_nil_of_all_space {l : List Char} (h : ∀ c ∈ l, pyIsSpace c = true) :
    pyStrip l = [] := by
  unfold pyStrip
  have h1 : l.dropWhile pyIsSpace = [] := List.dropWhile_eq_nil_iff.2 h
  simp [h1]

theorem space_not_invalid {c : Char} (h : pyIsSpace c = true) :
    EXCEL_INVALID_CHARS.contains c = false := by
  have hm : c ∈ [' ', '\t', '\n', '\x0b', '\x0c', '\r'] := by
    simpa [pyIsSpace] using h
  fin_cases hm <;> decide

/-- C9: `sanitize_sheet_name` always returns a non-empty name of at most
31 characters holding no Excel-invalid character, and a name that is
whitespace-only (in particular empty) after truncation maps to the
literal `"Sheet"`. -/
theorem C9_sanitize_sheet_name (name : String) :
    sanitize_sheet_name name ≠ ""
    ∧ (sanitize_sheet_name name).length ≤ sheet_name_max_length
    ∧ (∀ c ∈ (sanitize_sheet_name name).data, c ∉ EXCEL_INVALID_CHARS)
    ∧ ((name.data.take sheet_name_max_length).all pyIsSpace = true →
        sanitize_sheet_name name = "Sheet") := by
  unfold sanitize_sheet_name
  set replaced := name.data.map
    (fun c => if EXCEL_INVALID_CHARS.contains c then '_' else c) with hrep
  set truncated := replaced.take sheet_name_max_length with htrunc
  refine ⟨?_, ?_, ?_, ?_⟩
  · by_cases he : (pyStrip truncated).isEmpty
    · simp only [he, if_true]
      decide
    · simp only [he, if_false]
      intro hcon
      have : pyStrip truncated = [] := by
        have := congrArg String.data hcon
        simpa using this
      simp [this] at he
  · by_cases he : (pyStrip truncated).isEmpty
    · simp only [he, if_true]
      decide
    · simp only [he, if_false]
      show (String.mk (pyStrip truncated)).length ≤ sheet_name_max_length
      have h1 : (String.mk (pyStrip truncated)).length = (pyStrip truncated).length := rfl
      rw [h1]
      calc (pyStrip truncated).length ≤ truncated.length := pyStrip_length_le _
        _ ≤ sheet_name_max_length := List.length_take_le _ _
  · intro c hc
    by_cases he : (pyStrip truncated).isEmpty
    · simp only [he, if_true] at hc
      have : c ∈ ("Sheet".data : List Char) := pyStrip_subset hc
      fin_cases this <;> decide
    · simp only [he, if_false] at hc
      have h2 : c ∈ truncated := pyStrip_subset hc
      have h3 : c ∈ replaced := List.take_subset _ _ h2
      rw [hrep] at h3
      obtain ⟨c0, _, hc0⟩ := List.mem_map.1 h3
      by_cases hinv : EXCEL_INVALID_CHARS.contains c0
      · rw [if_pos hinv] at hc0
        subst hc0
        decide
      · rw [if_neg hinv] at hc0
        subst hc0
        intro hmem
        exact hinv (List.elem_eq_true_of_mem hmem)
  · intro hall
    have hsp : ∀ c ∈ truncated, pyIsSpace c = true := by
      intro c hc
      rw [htrunc, hrep, ← List.map_take] at hc
      obtain ⟨c0, hc0mem, hc0⟩ := List.mem_map.1 hc
      have hsp0 : pyIsSpace c0 = true := by
        have := List.all_eq_true.1 hall c0 hc0mem
        simpa using this
      have : EXCEL_INVALID_CHARS.contains c0 = false := space_not_invalid hsp0
      rw [this] at hc0
      simp at hc0
      rw [← hc0]
      exact hsp0
    have hnil : pyStrip truncated = [] := pyStrip_nil_of_all_space hsp
    simp [hnil]
    decide

/-- C9 witness: a whitespace-only input maps to `"Sheet"`. -/
theorem C9_sanitize_sheet_name_witness :
    ("   ".data.take sheet_name_max_length).all pyIsSpace = true
    ∧ sanitize_sheet_name "   " = "Sheet" :=
  ⟨by decide, (C9_sanitize_sheet_name "   ").2.2.2 (by decide)⟩

/-- C10: `get_image_files` returns the empty list for a missing
directory, and otherwise exactly the directly contained regular files
whose lowercased suffix is a supported image format, sorted by file
name. -/
theorem C10_get_image_files :
    get_image_files none = []
    ∧ (∀ (files : List String) (f : String),
        f ∈ get_image_files (some files) ↔ f ∈ files ∧ isImageFileName f = true)
    ∧ (∀ files : List String, List.Sorted nameLe (get_image_files (some files)))
    ∧ (∀ files : List String,
        List.Perm (get_image_files (some files)) (files.filter isImageFileName)) := by
  refine ⟨rfl, fun files f => ?_, fun files => ?_, fun files => ?_⟩
  · show f ∈ imageFilesOf files ↔ _
    unfold imageFilesOf
    rw [(List.perm_insertionSort nameLe _).mem_iff, List.mem_filter]
  · exact List.sorted_insertionSort nameLe _
  · exact List.perm_insertionSort nameLe _

/-- C2 counterexample: the timestamp 1500 in Milliseconds round-trips to
1000, not 1500 — the DateTime→Timestamp tab truncates `dt.timestamp()`
to whole seconds with `int()` before scaling back. -/
theorem C2_roundtrip_counterexample :
    timestampRoundTrip 1500 TsUnit.milliseconds = 1000
    ∧ timestampRoundTrip 1500 TsUnit.milliseconds ≠ 1500 := by
  have h : timestampRoundTrip 1500 TsUnit.milliseconds = 1000 := by
    show pyIntTrunc (((1500 : Int) : Rat) / ((unitFactor TsUnit.milliseconds : Int) : Rat))
          * unitFactor TsUnit.milliseconds = 1000
    have h32 : ((1500 : Int) : Rat) / ((unitFactor TsUnit.milliseconds : Int) : Rat)
        = 3 / 2 := by
      norm_num [unitFactor]
    rw [h32]
    have hp : pyIntTrunc (3 / 2 : Rat) = 1 := by
      unfold pyIntTrunc
      rw [if_pos (by norm_num : (0 : Rat) ≤ 3 / 2)]
      rw [Int.floor_eq_iff] <;> norm_num
    rw [hp]
    decide
  exact ⟨h, by rw [h]; decide⟩

theorem pyIntTrunc_intCast (k : Int) : pyIntTrunc (k : Rat) = k := by
  unfold pyIntTrunc
  split
  · exact Int.floor_intCast k
  · exact Int.ceil_intCast k

/-- C2 (amended): the round trip Timestamp→DateTime→Timestamp within one
unit is the identity exactly on whole multiples of the unit's factor —
always for Seconds, and for Milliseconds/Microseconds when the value is
a whole number of seconds; otherwise the value is truncated toward zero
to a whole second. -/
theorem C2_roundtrip_on_whole_seconds :
    (∀ t : Int, timestampRoundTrip t TsUnit.seconds = t)
    ∧ (∀ (t : Int) (u : TsUnit), unitFactor u ∣ t → timestampRoundTrip t u = t) := by
  have hmain : ∀ (t : Int) (u : TsUnit), unitFactor u ∣ t → timestampRoundTrip t u = t := by
    intro t u hdvd
    obtain ⟨k, hk⟩ := hdvd
    have hu : ((unitFactor u : Int) : Rat) ≠ 0 := by cases u <;> norm_num [unitFactor]
    have harg : ((unitFactor u * k : Int) : Rat) / ((unitFactor u : Int) : Rat)
        = ((k : Int) : Rat) := by
      push_cast
      rw [mul_comm, mul_div_assoc, div_self hu, mul_one]
    unfold timestampRoundTrip datetimeToTimestamp timestampToDatetime
    rw [hk, harg, pyIntTrunc_intCast]
    exact mul_comm k (unitFactor u)
  exact ⟨fun t => hmain t TsUnit.seconds ⟨t, by simp [unitFactor]⟩, hmain⟩

/-- C2 witness: 5000 ms is a whole number of seconds and round-trips. -/
theorem C2_roundtrip_witness :
    unitFactor TsUnit.milliseconds ∣ 5000
    ∧ timestampRoundTrip 5000 TsUnit.milliseconds = 5000 :=
  ⟨⟨5, by decide⟩, C2_roundtrip_on_whole_seconds.2 5000 TsUnit.milliseconds ⟨5, by decide⟩⟩

theorem pyIntTrunc_of_nonneg {q : Rat} (h : 0 ≤ q) : pyIntTrunc q = ⌊q⌋ := by
  unfold pyIntTrunc
  rw [if_pos h]

theorem int_log2_eq {q : Rat} {e : Int} (hq : 0 < q)
    (h1 : (2 : Rat) ^ e ≤ q) (h2 : q < (2 : Rat) ^ (e + 1)) : Int.log 2 q = e := by
  have hle : e ≤ Int.log 2 q := by
    refine (Int.zpow_le_iff_le_log one_lt_two hq).1 ?_
    exact_mod_cast h1
  have hlt : Int.log 2 q < e + 1 := by
    refine (Int.lt_zpow_iff_log_lt one_lt_two hq).1 ?_
    exact_mod_cast h2
  omega

theorem roundHalfEven_sub_abs (x : Rat) : |((roundHalfEven x : Int) : Rat) - x| ≤ 1/2 := by
  have h0 : ((⌊x⌋ : Int) : Rat) ≤ x := Int.floor_le x
  have h1 : x < (⌊x⌋ : Rat) + 1 := Int.lt_floor_add_one x
  unfold roundHalfEven
  split
  next hlt =>
    rw [abs_le]
    constructor <;> linarith
  next hlt =>
    split
    next hgt =>
      push_cast
      rw [abs_le]
      constructor <;> linarith
    next hgt =>
      have heq : x - (⌊x⌋ : Rat) = 1/2 := le_antisymm (not_lt.1 hgt) (not_lt.1 hlt)
      split
      next =>
        rw [abs_le]
        constructor <;> linarith
      next =>
        push_cast
        rw [abs_le]
        constructor <;> linarith

theorem roundB64_abs_err {q : Rat} (hq : 0 < q) :
    |roundB64 q - q| ≤ q * 2 ^ (-53 : Int) := by
  unfold roundB64
  rw [if_neg (not_le.2 hq)]
  have h2' : (0 : Rat) < 2 ^ (Int.log 2 q - 52) := zpow_pos (by norm_num) _
  have hkey := roundHalfEven_sub_abs (q * 2 ^ (52 - Int.log 2 q))
  have hsplit :
      ((roundHalfEven (q * 2 ^ (52 - Int.log 2 q)) : Int) : Rat) * 2 ^ (Int.log 2 q - 52) - q
        = (((roundHalfEven (q * 2 ^ (52 - Int.log 2 q)) : Int) : Rat)
            - q * 2 ^ (52 - Int.log 2 q)) * 2 ^ (Int.log 2 q - 52) := by
    rw [sub_mul, mul_assoc, ← zpow_add₀ (by norm_num : (2 : Rat) ≠ 0),
      show 52 - Int.log 2 q + (Int.log 2 q - 52) = 0 from by ring, zpow_zero, mul_one]
  have hlog : (2 : Rat) ^ Int.log 2 q ≤ q := by
    have := Int.zpow_log_le_self (b := 2) (r := q) one_lt_two hq
    exact_mod_cast this
  calc |((roundHalfEven (q * 2 ^ (52 - Int.log 2 q)) : Int) : Rat) * 2 ^ (Int.log 2 q - 52) - q|
      = |((roundHalfEven (q * 2 ^ (52 - Int.log 2 q)) : Int) : Rat)
          - q * 2 ^ (52 - Int.log 2 q)| * 2 ^ (Int.log 2 q - 52) := by
        rw [hsplit, abs_mul, abs_of_pos h2']
    _ ≤ 1/2 * 2 ^ (Int.log 2 q - 52) := mul_le_mul_of_nonneg_right hkey (le_of_lt h2')
    _ = 2 ^ Int.log 2 q * 2 ^ (-53 : Int) := by
        rw [show Int.log 2 q - 52 = Int.log 2 q + -53 + 1 from by ring,
          zpow_add₀ (by norm_num : (2 : Rat) ≠ 0),
          zpow_add₀ (by norm_num : (2 : Rat) ≠ 0)]
        norm_num
        ring
    _ ≤ q * 2 ^ (-53 : Int) :=
        mul_le_mul_of_nonneg_right hlog (le_of_lt (zpow_pos (by norm_num) _))

theorem roundB64_le {q : Rat} (hq : 0 ≤ q) : roundB64 q ≤ q * (1 + 2 ^ (-53 : Int)) := by
  rcases eq_or_lt_of_le hq with h | h
  · rw [← h]
    simp [roundB64]
  · have habs := abs_le.1 (roundB64_abs_err h)
    calc roundB64 q ≤ q + q * 2 ^ (-53 : Int) := by linarith [habs.2]
      _ = q * (1 + 2 ^ (-53 : Int)) := by ring

theorem roundB64_ge {q : Rat} (hq : 0 ≤ q) : q * (1 - 2 ^ (-53 : Int)) ≤ roundB64 q := by
  rcases eq_or_lt_of_le hq with h | h
  · rw [← h]
    simp [roundB64]
  · have habs := abs_le.1 (roundB64_abs_err h)
    calc q * (1 - 2 ^ (-53 : Int)) = q - q * 2 ^ (-53 : Int) := by ring
      _ ≤ roundB64 q := by linarith [habs.1]

theorem roundB64_nonneg (q : Rat) : 0 ≤ roundB64 q := by
  by_cases h : q ≤ 0
  · simp [roundB64, h]
  · have hq : 0 < q := not_le.1 h
    have hge := roundB64_ge (le_of_lt hq)
    have hc : (2 : Rat) ^ (-53 : Int) = 1/9007199254740992 := by norm_num
    rw [hc] at hge
    have h9 : (0 : Rat) < 1 - 1/9007199254740992 := by norm_num
    have := mul_nonneg (le_of_lt hq) (le_of_lt h9)
    linarith

theorem roundB64_lt_one {m x : Nat} (hmx : m < x) (hx : x ≤ 2 ^ 24) :
    roundB64 ((m : Rat) / (x : Rat)) < 1 := by
  have hx0 : (0 : Rat) < x := by
    exact_mod_cast Nat.lt_of_le_of_lt (Nat.zero_le m) hmx
  have hq0 : 0 ≤ (m : Rat) / (x : Rat) := by positivity
  have hle := roundB64_le hq0
  have hmle : (m : Rat) ≤ (x : Rat) - 1 := by
    have h1 : ((m + 1 : Nat) : Rat) ≤ ((x : Nat) : Rat) := by exact_mod_cast hmx
    push_cast at h1
    linarith
  have hxle : (x : Rat) ≤ 2 ^ 24 := by exact_mod_cast hx
  have hfrac : (m : Rat) / (x : Rat) ≤ 1 - 1 / (x : Rat) := by
    rw [div_le_iff₀ hx0]
    have hexp : (1 - 1 / (x : Rat)) * x = x - 1 := by field_simp
    rw [hexp]
    exact hmle
  have hone_div : (1 : Rat) / 2 ^ 24 ≤ 1 / (x : Rat) := one_div_le_one_div_of_le hx0 hxle
  have hc : (2 : Rat) ^ (-53 : Int) = 1/9007199254740992 := by norm_num
  rw [hc] at hle
  have h1 : (m : Rat) / (x : Rat) * (1 + 1/9007199254740992)
      ≤ (1 - 1 / (x : Rat)) * (1 + 1/9007199254740992) :=
    mul_le_mul_of_nonneg_right hfrac (by norm_num)
  have h2 : (1 - 1 / (x : Rat)) * (1 + 1/9007199254740992) < 1 := by
    nlinarith [hone_div]
  linarith

theorem pyScaled_bounds {a b x : Nat} (hb : 0 < b) (ha : a ≤ 2 ^ 24) (hx : x ≤ 2 ^ 24) :
    0 ≤ pyIntTrunc (pyFloatMul (x : Rat) (pyFloatDiv (a : Rat) (b : Rat)))
    ∧ ⌊(x : Rat) * a / b⌋ - 1 ≤ pyIntTrunc (pyFloatMul (x : Rat) (pyFloatDiv (a : Rat) (b : Rat)))
    ∧ pyIntTrunc (pyFloatMul (x : Rat) (pyFloatDiv (a : Rat) (b : Rat))) ≤ ⌊(x : Rat) * a / b⌋ + 1 := by
  simp only [pyFloatMul, pyFloatDiv]
  have hb0 : (0 : Rat) < b := by exact_mod_cast hb
  have hq0 : 0 ≤ (a : Rat) / (b : Rat) := by positivity
  set d := roundB64 ((a : Rat) / (b : Rat)) with hd
  have hd0 : 0 ≤ d := roundB64_nonneg _
  have hdle : d ≤ (a : Rat) / (b : Rat) * (1 + 2 ^ (-53 : Int)) := roundB64_le hq0
  have hdge : (a : Rat) / (b : Rat) * (1 - 2 ^ (-53 : Int)) ≤ d := roundB64_ge hq0
  have hxd0 : 0 ≤ (x : Rat) * d := mul_nonneg (by positivity) hd0
  set p := roundB64 ((x : Rat) * d) with hp
  have hple : p ≤ (x : Rat) * d * (1 + 2 ^ (-53 : Int)) := roundB64_le hxd0
  have hpge : (x : Rat) * d * (1 - 2 ^ (-53 : Int)) ≤ p := roundB64_ge hxd0
  have hp0 : 0 ≤ p := roundB64_nonneg _
  have hE0 : 0 ≤ (x : Rat) * a / b := by positivity
  have hE48 : (x : Rat) * a / b ≤ 2 ^ 48 := by
    have hxq : (x : Rat) ≤ 2 ^ 24 := by exact_mod_cast hx
    have haq : (a : Rat) ≤ 2 ^ 24 := by exact_mod_cast ha
    have hb1 : (1 : Rat) ≤ b := by exact_mod_cast hb
    calc (x : Rat) * a / b ≤ (x : Rat) * a / 1 :=
          div_le_div_of_nonneg_left (by positivity) one_pos hb1
      _ = (x : Rat) * a := div_one _
      _ ≤ 2 ^ 24 * 2 ^ 24 := mul_le_mul hxq haq (by positivity) (by positivity)
      _ = 2 ^ 48 := by norm_num
  have hc : (2 : Rat) ^ (-53 : Int) = 1/9007199254740992 := by norm_num
  rw [hc] at hdle hdge hple hpge
  have hdle' : (x : Rat) * d ≤ ((x : Rat) * a / b) * (1 + 1/9007199254740992) := by
    calc (x : Rat) * d ≤ (x : Rat) * ((a : Rat) / (b : Rat) * (1 + 1/9007199254740992)) :=
          mul_le_mul_of_nonneg_left hdle (by positivity)
      _ = ((x : Rat) * a / b) * (1 + 1/9007199254740992) := by ring
  have hdge' : ((x : Rat) * a / b) * (1 - 1/9007199254740992) ≤ (x : Rat) * d := by
    calc ((x : Rat) * a / b) * (1 - 1/9007199254740992)
        = (x : Rat) * ((a : Rat) / (b : Rat) * (1 - 1/9007199254740992)) := by ring
      _ ≤ (x : Rat) * d := mul_le_mul_of_nonneg_left hdge (by positivity)
  have hub : p ≤ (x : Rat) * a / b + 1 := by
    have h1 : p ≤ ((x : Rat) * a / b) * (1 + 1/9007199254740992) * (1 + 1/9007199254740992) := by
      calc p ≤ (x : Rat) * d * (1 + 1/9007199254740992) := hple
        _ ≤ ((x : Rat) * a / b) * (1 + 1/9007199254740992) * (1 + 1/9007199254740992) :=
            mul_le_mul_of_nonneg_right hdle' (by norm_num)
    nlinarith [hE48, hE0, h1]
  have hlb : (x : Rat) * a / b - 1 ≤ p := by
    have h1 : ((x : Rat) * a / b) * (1 - 1/9007199254740992) * (1 - 1/9007199254740992) ≤ p := by
      calc ((x : Rat) * a / b) * (1 - 1/9007199254740992) * (1 - 1/9007199254740992)
          ≤ (x : Rat) * d * (1 - 1/9007199254740992) :=
            mul_le_mul_of_nonneg_right hdge' (by norm_num)
        _ ≤ p := hpge
    nlinarith [hE48, hE0, h1]
  refine ⟨?_, ?_, ?_⟩
  · rw [pyIntTrunc_of_nonneg hp0]
    exact Int.floor_nonneg.2 hp0
  · rw [pyIntTrunc_of_nonneg hp0]
    have hfl : ⌊(x : Rat) * a / b - ((1 : Int) : Rat)⌋ ≤ ⌊p⌋ :=
      Int.floor_le_floor (by push_cast; linarith [hlb])
    rw [Int.floor_sub_int] at hfl
    exact hfl
  · rw [pyIntTrunc_of_nonneg hp0]
    have hfl : ⌊p⌋ ≤ ⌊(x : Rat) * a / b + ((1 : Int) : Rat)⌋ :=
      Int.floor_le_floor (by push_cast; linarith [hub])
    rw [Int.floor_add_int] at hfl
    exact hfl

theorem pyFreeScaled_le {m x : Nat} {s : Rat} (hx : x ≤ 2 ^ 24)
    (hs0 : 0 ≤ s) (hs1 : s ≤ 1)
    (hcase : m < x → s ≤ roundB64 ((m : Rat) / (x : Rat))) :
    (pyIntTrunc (pyFloatMul (x : Rat) s)).toNat ≤ m := by
  simp only [pyFloatMul]
  have hxs0 : 0 ≤ (x : Rat) * s := mul_nonneg (by positivity) hs0
  have hple := roundB64_le hxs0
  have hp0 := roundB64_nonneg ((x : Rat) * s)
  have hc : (2 : Rat) ^ (-53 : Int) = 1/9007199254740992 := by norm_num
  rw [hc] at hple
  rw [pyIntTrunc_of_nonneg hp0, Int.toNat_le]
  rcases Nat.lt_or_ge m x with hmx | hxm
  · have hx0 : (0 : Rat) < x := by
      exact_mod_cast Nat.lt_of_le_of_lt (Nat.zero_le m) hmx
    have hm24 : (m : Rat) ≤ 2 ^ 24 := by
      exact_mod_cast le_trans (Nat.le_of_lt hmx) hx
    have hrle := roundB64_le (show (0 : Rat) ≤ (m : Rat) / (x : Rat) by positivity)
    rw [hc] at hrle
    have hm0 : (0 : Rat) ≤ (m : Rat) := by positivity
    have hxs_le : (x : Rat) * s ≤ (m : Rat) * (1 + 1/9007199254740992) := by
      calc (x : Rat) * s
          ≤ (x : Rat) * ((m : Rat) / (x : Rat) * (1 + 1/9007199254740992)) :=
            mul_le_mul_of_nonneg_left (le_trans (hcase hmx) hrle) (by positivity)
        _ = (m : Rat) * (1 + 1/9007199254740992) := by
            field_simp
            ring
    have hp_lt : roundB64 ((x : Rat) * s) < (m : Rat) + 1 := by
      have h1 : roundB64 ((x : Rat) * s)
          ≤ (m : Rat) * (1 + 1/9007199254740992) * (1 + 1/9007199254740992) :=
        le_trans hple (mul_le_mul_of_nonneg_right hxs_le (by norm_num))
      nlinarith [hm24, hm0, h1]
    have : (⌊roundB64 ((x : Rat) * s)⌋ : Rat) < (m : Rat) + 1 :=
      lt_of_le_of_lt (Int.floor_le _) hp_lt
    have hlt : ⌊roundB64 ((x : Rat) * s)⌋ < (m : Int) + 1 := by exact_mod_cast this
    omega
  · have hxq : (x : Rat) ≤ 2 ^ 24 := by exact_mod_cast hx
    have hp_lt : roundB64 ((x : Rat) * s) < (x : Rat) + 1 := by
      have h1 : (x : Rat) * s * (1 + 1/9007199254740992)
          ≤ (x : Rat) * 1 * (1 + 1/9007199254740992) :=
        mul_le_mul_of_nonneg_right
          (mul_le_mul_of_nonneg_left hs1 (by positivity)) (by norm_num)
      nlinarith [hxq, hple, h1]
    have : (⌊roundB64 ((x : Rat) * s)⌋ : Rat) < (x : Rat) + 1 :=
      lt_of_le_of_lt (Int.floor_le _) hp_lt
    have hlt : ⌊roundB64 ((x : Rat) * s)⌋ < (x : Int) + 1 := by exact_mod_cast this
    have hxm' : (x : Int) ≤ (m : Int) := by exact_mod_cast hxm
    omega

/-- C5 counterexample: a 49x49 image with `fixed_width = 1` comes out with
height 0, not 1: the double `1/49` is slightly below the exact rational, so
`49 * (1/49)` is the double just below 1 and `int()` truncates it to 0,
while exact-rational evaluation of the claimed formula
`int(height * (fixed_width/width))` gives 1. -/
theorem C5_resize_image_counterexample :
    resize_image 700 500 1 0 49 49 = (1, 0)
    ∧ (⌊(49 : Rat) * ((1 : Rat) / (49 : Rat))⌋).toNat = 1 := by
  have hlog1 : Int.log 2 ((1 : Rat) / 49) = -6 :=
    int_log2_eq (by norm_num) (by norm_num) (by norm_num)
  have hd : roundB64 ((1 : Rat) / 49) = 5882252574524729 / 288230376151711744 := by
    unfold roundB64
    rw [if_neg (by norm_num), hlog1]
    norm_num [roundHalfEven]
  have hq2 : (49 : Rat) * (5882252574524729 / 288230376151711744)
      = 288230376151711721 / 288230376151711744 := by norm_num
  have hlog2 : Int.log 2 ((288230376151711721 : Rat) / 288230376151711744) = -1 :=
    int_log2_eq (by norm_num) (by norm_num) (by norm_num)
  have hp : roundB64 ((288230376151711721 : Rat) / 288230376151711744)
      = 9007199254740991 / 9007199254740992 := by
    unfold roundB64
    rw [if_neg (by norm_num), hlog2]
    norm_num [roundHalfEven]
  refine ⟨?_, by norm_num⟩
  simp only [resize_image]
  norm_num
  simp only [pyFloatDiv, pyFloatMul]
  rw [hd, hq2, hp, pyIntTrunc_of_nonneg (by norm_num)]
  norm_num

/-- C5 (amended): over IEEE-754 binary64 arithmetic (each `/` and `*`
correctly rounded, `int()` truncating toward zero), `resize_image` behaves
as follows for dimensions up to `2^24`.  Two fixed dimensions are forced
exactly.  One fixed dimension is forced and the other dimension lands
within one pixel of the exact proportional value `int(h*fw/w)` (resp.
`int(w*fh/h)`) - rounding can shift it by a pixel either way.  With no
fixed dimension, both dimensions are scaled by the single shared factor
`min(scale_w, scale_h, 1)` computed in doubles, the result never exceeds
`max_width` by `max_height`, and an image already within both bounds is
returned unchanged. -/
theorem C5_resize_image_double (mw mh fw fh w h : Nat)
    (hw24 : w ≤ 2 ^ 24) (hh24 : h ≤ 2 ^ 24) (hfw24 : fw ≤ 2 ^ 24) (hfh24 : fh ≤ 2 ^ 24) :
    (fw ≠ 0 → fh ≠ 0 → resize_image mw mh fw fh w h = (fw, fh))
    ∧ (fw ≠ 0 → fh = 0 → 0 < w →
        (resize_image mw mh fw fh w h).1 = fw
        ∧ ⌊(h : Rat) * fw / w⌋ - 1 ≤ ((resize_image mw mh fw fh w h).2 : Int)
        ∧ ((resize_image mw mh fw fh w h).2 : Int) ≤ ⌊(h : Rat) * fw / w⌋ + 1)
    ∧ (fw = 0 → fh ≠ 0 → 0 < h →
        (resize_image mw mh fw fh w h).2 = fh
        ∧ ⌊(w : Rat) * fh / h⌋ - 1 ≤ ((resize_image mw mh fw fh w h).1 : Int)
        ∧ ((resize_image mw mh fw fh w h).1 : Int) ≤ ⌊(w : Rat) * fh / h⌋ + 1)
    ∧ (fw = 0 → fh = 0 →
        (w ≤ mw → h ≤ mh → resize_image mw mh fw fh w h = (w, h))
        ∧ (resize_image mw mh fw fh w h).1 ≤ mw
        ∧ (resize_image mw mh fw fh w h).2 ≤ mh
        ∧ resize_image mw mh fw fh w h =
            (if min (min (if mw < w then pyFloatDiv (mw : Rat) (w : Rat) else 1)
                  (if mh < h then pyFloatDiv (mh : Rat) (h : Rat) else 1)) 1 < 1
             then
               ((pyIntTrunc (pyFloatMul (w : Rat)
                   (min (min (if mw < w then pyFloatDiv (mw : Rat) (w : Rat) else 1)
                     (if mh < h then pyFloatDiv (mh : Rat) (h : Rat) else 1)) 1))).toNat,
                (pyIntTrunc (pyFloatMul (h : Rat)
                   (min (min (if mw < w then pyFloatDiv (mw : Rat) (w : Rat) else 1)
                     (if mh < h then pyFloatDiv (mh : Rat) (h : Rat) else 1)) 1))).toNat)
             else (w, h))) := by
  refine ⟨?_, ?_, ?_, ?_⟩
  · intro hfw hfh
    simp [resize_image, hfw, hfh]
  · intro hfw hfh hw0
    subst hfh
    have hres : resize_image mw mh fw 0 w h
        = (fw, (pyIntTrunc (pyFloatMul (h : Rat) (pyFloatDiv (fw : Rat) (w : Rat)))).toNat) := by
      simp [resize_image, hfw]
    obtain ⟨hnn, hlb, hub⟩ := pyScaled_bounds (a := fw) (b := w) (x := h) hw0 hfw24 hh24
    refine ⟨by rw [hres], ?_, ?_⟩
    · rw [hres]
      show ⌊(h : Rat) * fw / w⌋ - 1
        ≤ ((pyIntTrunc (pyFloatMul (h : Rat) (pyFloatDiv (fw : Rat) (w : Rat)))).toNat : Int)
      rw [Int.toNat_of_nonneg hnn]
      exact hlb
    · rw [hres]
      show ((pyIntTrunc (pyFloatMul (h : Rat) (pyFloatDiv (fw : Rat) (w : Rat)))).toNat : Int)
        ≤ ⌊(h : Rat) * fw / w⌋ + 1
      rw [Int.toNat_of_nonneg hnn]
      exact hub
  · intro hfw hfh hh0
    subst hfw
    have hres : resize_image mw mh 0 fh w h
        = ((pyIntTrunc (pyFloatMul (w : Rat) (pyFloatDiv (fh : Rat) (h : Rat)))).toNat, fh) := by
      simp [resize_image, hfh]
    obtain ⟨hnn, hlb, hub⟩ := pyScaled_bounds (a := fh) (b := h) (x := w) hh0 hfh24 hw24
    refine ⟨by rw [hres], ?_, ?_⟩
    · rw [hres]
      show ⌊(w : Rat) * fh / h⌋ - 1
        ≤ ((pyIntTrunc (pyFloatMul (w : Rat) (pyFloatDiv (fh : Rat) (h : Rat)))).toNat : Int)
      rw [Int.toNat_of_nonneg hnn]
      exact hlb
    · rw [hres]
      show ((pyIntTrunc (pyFloatMul (w : Rat) (pyFloatDiv (fh : Rat) (h : Rat)))).toNat : Int)
        ≤ ⌊(w : Rat) * fh / h⌋ + 1
      rw [Int.toNat_of_nonneg hnn]
      exact hub
  · intro hfw hfh
    subst hfw
    subst hfh
    have hres : resize_image mw mh 0 0 w h
        = (if min (min (if mw < w then pyFloatDiv (mw : Rat) (w : Rat) else 1)
              (if mh < h then pyFloatDiv (mh : Rat) (h : Rat) else 1)) 1 < 1
           then
             ((pyIntTrunc (pyFloatMul (w : Rat)
                 (min (min (if mw < w then pyFloatDiv (mw : Rat) (w : Rat) else 1)
                   (if mh < h then pyFloatDiv (mh : Rat) (h : Rat) else 1)) 1))).toNat,
              (pyIntTrunc (pyFloatMul (h : Rat)
                 (min (min (if mw < w then pyFloatDiv (mw : Rat) (w : Rat) else 1)
                   (if mh < h then pyFloatDiv (mh : Rat) (h : Rat) else 1)) 1))).toNat)
           else (w, h)) := by
      simp [resize_image]
    set SW : Rat := if mw < w then pyFloatDiv (mw : Rat) (w : Rat) else 1 with hSW
    set SH : Rat := if mh < h then pyFloatDiv (mh : Rat) (h : Rat) else 1 with hSH
    have hSW0 : 0 ≤ SW := by
      rw [hSW]
      split
      · exact roundB64_nonneg _
      · norm_num
    have hSH0 : 0 ≤ SH := by
      rw [hSH]
      split
      · exact roundB64_nonneg _
      · norm_num
    have hs0 : 0 ≤ min (min SW SH) 1 := le_min (le_min hSW0 hSH0) zero_le_one
    have hs1 : min (min SW SH) 1 ≤ 1 := min_le_right _ _
    by_cases hlt : min (min SW SH) 1 < 1
    · rw [hres, if_pos hlt]
      refine ⟨?_, ?_, ?_, rfl⟩
      · intro hwle hhle
        exfalso
        have h1 : SW = 1 := by rw [hSW, if_neg (Nat.not_lt.2 hwle)]
        have h2 : SH = 1 := by rw [hSH, if_neg (Nat.not_lt.2 hhle)]
        rw [h1, h2] at hlt
        simp at hlt
      · refine pyFreeScaled_le hw24 hs0 hs1 ?_
        intro hmw
        have h1 : min (min SW SH) 1 ≤ SW := le_trans (min_le_left _ _) (min_le_left _ _)
        have h1' : SW = pyFloatDiv (mw : Rat) (w : Rat) := by rw [hSW, if_pos hmw]
        exact h1.trans (le_of_eq h1')
      · refine pyFreeScaled_le hh24 hs0 hs1 ?_
        intro hmh
        have h1 : min (min SW SH) 1 ≤ SH := le_trans (min_le_left _ _) (min_le_right _ _)
        have h1' : SH = pyFloatDiv (mh : Rat) (h : Rat) := by rw [hSH, if_pos hmh]
        exact h1.trans (le_of_eq h1')
    · rw [hres, if_neg hlt]
      have hwle : w ≤ mw := by
        by_contra hmw'
        have hmw : mw < w := Nat.lt_of_not_le hmw'
        have h1 : min (min SW SH) 1 ≤ SW := le_trans (min_le_left _ _) (min_le_left _ _)
        have h1' : SW = pyFloatDiv (mw : Rat) (w : Rat) := by rw [hSW, if_pos hmw]
        have h2 : pyFloatDiv (mw : Rat) (w : Rat) < 1 := roundB64_lt_one hmw hw24
        exact hlt (lt_of_le_of_lt (h1.trans (le_of_eq h1')) h2)
      have hhle : h ≤ mh := by
        by_contra hmh'
        have hmh : mh < h := Nat.lt_of_not_le hmh'
        have h1 : min (min SW SH) 1 ≤ SH := le_trans (min_le_left _ _) (min_le_right _ _)
        have h1' : SH = pyFloatDiv (mh : Rat) (h : Rat) := by rw [hSH, if_pos hmh]
        have h2 : pyFloatDiv (mh : Rat) (h : Rat) < 1 := roundB64_lt_one hmh hh24
        exact hlt (lt_of_le_of_lt (h1.trans (le_of_eq h1')) h2)
      exact ⟨fun _ _ => rfl, hwle, hhle, rfl⟩

/-- C5 witness: a 600x400 image with maxima 700x500, no fixed dimensions,
is within bounds and returned unchanged. -/
theorem C5_resize_image_double_witness :
    (600 : Nat) ≤ 2 ^ 24 ∧ (400 : Nat) ≤ 2 ^ 24 ∧ (0 : Nat) ≤ 2 ^ 24
    ∧ resize_image 700 500 0 0 600 400 = (600, 400) :=
  ⟨by norm_num, by norm_num, by norm_num,
    ((C5_resize_image_double 700 500 0 0 600 400 (by norm_num) (by norm_num)
      (by norm_num) (by norm_num)).2.2.2 rfl rfl).1 (by norm_num) (by norm_num)⟩

theorem lookupJ_isSome_iff {l : List (String × Json)} {k : String} :
    (lookupJ l k).isSome = true ↔ k ∈ keysJ l := by
  induction l with
  | nil => simp [lookupJ, keysJ]
  | cons hd tl ih =>
    obtain ⟨k1, v1⟩ := hd
    by_cases hk : k1 = k
    · simp [lookupJ, hk, keysJ]
    · simp [lookupJ, hk, keysJ] at ih ⊢
      rw [ih]
      constructor
      · exact Or.inr
      · rintro (h | h)
        · exact absurd h.symm hk
        · exact h

theorem lookupJ_eq_some_iff_mem {l : List (String × Json)} {k : String} {v : Json}
    (h : lookupJ l k = some v) : k ∈ keysJ l := by
  rw [← lookupJ_isSome_iff, h]
  rfl

theorem mem_allKeys {l1 l2 : List (String × Json)} {k : String} :
    k ∈ allKeys l1 l2 ↔ k ∈ keysJ l1 ∨ k ∈ keysJ l2 := by
  simp [allKeys, List.mem_dedup, List.mem_append]

theorem find_diff_arr_eq (l1 l2 : List Json) (path : String) :
    find_diff_in_json (Json.arr l1) (Json.arr l2) path =
      (List.range (max l1.length l2.length)).flatMap (fun i =>
        if h1 : i < l1.length then
          if h2 : i < l2.length then
            if pyEq l1[i] l2[i] then []
            else find_diff_in_json l1[i] l2[i] (arrPath path i)
          else [arrPath path i ++ " [deleted]"]
        else [arrPath path i ++ " [added]"]) := by
  rw [find_diff_in_json]
  simp [typeTag]

theorem find_diff_obj_eq (l1 l2 : List (String × Json)) (path : String) :
    find_diff_in_json (Json.obj l1) (Json.obj l2) path =
      (allKeys l1 l2).flatMap (fun k =>
        if h1 : (lookupJ l1 k).isSome then
          if h2 : (lookupJ l2 k).isSome then
            if pyEq ((lookupJ l1 k).get h1) ((lookupJ l2 k).get h2) then []
            else find_diff_in_json ((lookupJ l1 k).get h1) ((lookupJ l2 k).get h2)
              (keyPath path k)
          else [keyPath path k ++ " [deleted]"]
        else [keyPath path k ++ " [added]"]) := by
  rw [find_diff_in_json]
  simp [typeTag]

/-- C6: on two arrays, `find_diff_in_json` works index by index up to the
longer length: indices past the first array give `[added]` paths,
indices past the second give `[deleted]` paths, common indices with
unequal elements contribute exactly the recursive diffs, and equal
common elements contribute nothing. -/
theorem C6_find_diff_arrays (l1 l2 : List Json) (path p : String) :
    p ∈ find_diff_in_json (Json.arr l1) (Json.arr l2) path ↔
      ((∃ i, l1.length ≤ i ∧ i < l2.length ∧ p = arrPath path i ++ " [added]")
      ∨ (∃ i, l2.length ≤ i ∧ i < l1.length ∧ p = arrPath path i ++ " [deleted]")
      ∨ (∃ i a b, l1[i]? = some a ∧ l2[i]? = some b ∧ pyEq a b = false
          ∧ p ∈ find_diff_in_json a b (arrPath path i))) := by
  rw [find_diff_arr_eq, List.mem_flatMap]
  constructor
  · rintro ⟨i, hi, hp⟩
    rw [List.mem_range] at hi
    by_cases h1 : i < l1.length
    · rw [dif_pos h1] at hp
      by_cases h2 : i < l2.length
      · rw [dif_pos h2] at hp
        by_cases hpe : pyEq l1[i] l2[i] = true
        · rw [if_pos hpe] at hp
          simp at hp
        · rw [if_neg hpe] at hp
          exact Or.inr (Or.inr ⟨i, l1[i], l2[i], List.getElem?_eq_getElem h1,
            List.getElem?_eq_getElem h2, Bool.eq_false_iff.2 hpe, hp⟩)
      · rw [dif_neg h2] at hp
        simp only [List.mem_singleton] at hp
        exact Or.inr (Or.inl ⟨i, Nat.le_of_not_lt h2, h1, hp⟩)
    · rw [dif_neg h1] at hp
      simp only [List.mem_singleton] at hp
      have h2 : i < l2.length := by omega
      exact Or.inl ⟨i, Nat.le_of_not_lt h1, h2, hp⟩
  · rintro (⟨i, hle, hlt, rfl⟩ | ⟨i, hle, hlt, rfl⟩ | ⟨i, a, b, ha, hb, hne, hp⟩)
    · refine ⟨i, List.mem_range.2 (by omega), ?_⟩
      rw [dif_neg (by omega)]
      simp
    · refine ⟨i, List.mem_range.2 (by omega), ?_⟩
      rw [dif_pos hlt, dif_neg (by omega)]
      simp
    · obtain ⟨h1, hval1⟩ := List.getElem?_eq_some.1 ha
      obtain ⟨h2, hval2⟩ := List.getElem?_eq_some.1 hb
      refine ⟨i, List.mem_range.2 (by omega), ?_⟩
      rw [dif_pos h1, dif_pos h2, hval1, hval2, if_neg (by simp [hne])]
      exact hp

/-- C7: on two dicts, `find_diff_in_json` reports each key present only
in the second dict as `[added]`, each key present only in the first as
`[deleted]`, contributes exactly the recursive diffs for common keys
with unequal values, and nothing for common keys with equal values. -/
theorem C7_find_diff_dicts (l1 l2 : List (String × Json)) (path p : String) :
    p ∈ find_diff_in_json (Json.obj l1) (Json.obj l2) path ↔
      ((∃ k, k ∉ keysJ l1 ∧ k ∈ keysJ l2 ∧ p = keyPath path k ++ " [added]")
      ∨ (∃ k, k ∈ keysJ l1 ∧ k ∉ keysJ l2 ∧ p = keyPath path k ++ " [deleted]")
      ∨ (∃ k v w, lookupJ l1 k = some v ∧ lookupJ l2 k = some w ∧ pyEq v w = false
          ∧ p ∈ find_diff_in_json v w (keyPath path k))) := by
  rw [find_diff_obj_eq, List.mem_flatMap]
  constructor
  · rintro ⟨k, hk, hp⟩
    by_cases h1 : (lookupJ l1 k).isSome = true
    · rw [dif_pos h1] at hp
      by_cases h2 : (lookupJ l2 k).isSome = true
      · rw [dif_pos h2] at hp
        by_cases hpe : pyEq ((lookupJ l1 k).get h1) ((lookupJ l2 k).get h2) = true
        · rw [if_pos hpe] at hp
          simp at hp
        · rw [if_neg hpe] at hp
          exact Or.inr (Or.inr ⟨k, (lookupJ l1 k).get h1, (lookupJ l2 k).get h2,
            (Option.some_get h1).symm, (Option.some_get h2).symm,
            Bool.eq_false_iff.2 hpe, hp⟩)
      · rw [dif_neg h2] at hp
        simp only [List.mem_singleton] at hp
        refine Or.inr (Or.inl ⟨k, lookupJ_isSome_iff.1 h1, ?_, hp⟩)
        intro hmem
        exact h2 (lookupJ_isSome_iff.2 hmem)
    · rw [dif_neg h1] at hp
      simp only [List.mem_singleton] at hp
      have hk2 : k ∈ keysJ l2 := by
        rcases mem_allKeys.1 hk with hm | hm
        · exact absurd (lookupJ_isSome_iff.2 hm) h1
        · exact hm
      refine Or.inl ⟨k, ?_, hk2, hp⟩
      intro hmem
      exact h1 (lookupJ_isSome_iff.2 hmem)
  · rintro (⟨k, hn1, hm2, rfl⟩ | ⟨k, hm1, hn2, rfl⟩ | ⟨k, v, w, hv, hw, hne, hp⟩)
    · refine ⟨k, mem_allKeys.2 (Or.inr hm2), ?_⟩
      rw [dif_neg (fun hs => hn1 (lookupJ_isSome_iff.1 hs))]
      simp
    · refine ⟨k, mem_allKeys.2 (Or.inl hm1), ?_⟩
      rw [dif_pos (lookupJ_isSome_iff.2 hm1),
        dif_neg (fun hs => hn2 (lookupJ_isSome_iff.1 hs))]
      simp
    · have h1 : (lookupJ l1 k).isSome = true := by rw [hv]; rfl
      have h2 : (lookupJ l2 k).isSome = true := by rw [hw]; rfl
      have hv1 : (lookupJ l1 k).get h1 = v :=
        Option.some_inj.1 ((Option.some_get h1).trans hv)
      have hw1 : (lookupJ l2 k).get h2 = w :=
        Option.some_inj.1 ((Option.some_get h2).trans hw)
      refine ⟨k, mem_allKeys.2 (Or.inl (lookupJ_eq_some_iff_mem hv)), ?_⟩
      rw [dif_pos h1, dif_pos h2, hv1, hw1, if_neg (by simp [hne])]
      exact hp

theorem pyEq_refl_aux :
    ∀ (n : Nat) (o : Json), sizeOf o ≤ n → pyEq o o = true := by
  intro n
  induction n with
  | zero =>
    intro o h
    exfalso
    cases o <;> simp at h
  | succ n ih =>
    intro o hsize
    rcases o with _ | b | m | q | s | l | l
    · simp [pyEq]
    · simp [pyEq]
    · simp [pyEq]
    · simp [pyEq]
    · simp [pyEq]
    · rw [pyEq, Bool.and_eq_true]
      refine ⟨by simp, List.all_eq_true.2 fun i hi => ?_⟩
      rw [List.mem_range] at hi
      rw [dif_pos hi, dif_pos hi]
      have hlt : sizeOf l[i] < sizeOf l := List.sizeOf_lt_of_mem (List.getElem_mem hi)
      have harr : sizeOf (Json.arr l) = 1 + sizeOf l := by simp
      exact ih l[i] (by omega)
    · rw [pyEq, Bool.and_eq_true]
      constructor
      · refine List.all_eq_true.2 fun k hk => ?_
        have h1 : (lookupJ l k).isSome = true := lookupJ_isSome_iff.2 hk
        rw [dif_pos h1, dif_pos h1]
        have hlt : sizeOf ((lookupJ l k).get h1) < sizeOf l :=
          sizeOf_lt_of_lookupJ (Option.some_get h1).symm
        have hobj : sizeOf (Json.obj l) = 1 + sizeOf l := by simp
        exact ih _ (by omega)
      · exact List.all_eq_true.2 fun k hk => lookupJ_isSome_iff.2 hk

theorem find_diff_eq_nil_iff_aux :
    ∀ (n : Nat) (o1 : Json), sizeOf o1 ≤ n → ∀ (o2 : Json) (path : String),
      (find_diff_in_json o1 o2 path = [] ↔
        typeTag o1 = typeTag o2 ∧ pyEq o1 o2 = true) := by
  intro n
  induction n with
  | zero =>
    intro o1 h
    exfalso
    cases o1 <;> simp at h
  | succ n ih =>
    intro o1 hsize o2 path
    by_cases htag : typeTag o1 = typeTag o2
    · rcases o1 with _ | b1 | n1 | q1 | s1 | l1 | l1 <;>
        rcases o2 with _ | b2 | n2 | q2 | s2 | l2 | l2 <;>
        first
          | (exfalso; revert htag; simp [typeTag]; done)
          | skip
      · simp [find_diff_in_json, typeTag, pyEq]
      · by_cases hb : pyEq (Json.bool b1) (Json.bool b2) = true <;>
          simp [find_diff_in_json, typeTag, hb]
      · by_cases hb : pyEq (Json.int n1) (Json.int n2) = true <;>
          simp [find_diff_in_json, typeTag, hb]
      · by_cases hb : pyEq (Json.float q1) (Json.float q2) = true <;>
          simp [find_diff_in_json, typeTag, hb]
      · by_cases hb : pyEq (Json.str s1) (Json.str s2) = true <;>
          simp [find_diff_in_json, typeTag, hb]
      · -- arrays
        have harr : sizeOf (Json.arr l1) = 1 + sizeOf l1 := by simp
        rw [find_diff_arr_eq, List.flatMap_eq_nil_iff]
        have hpyeq : pyEq (Json.arr l1) (Json.arr l2) =
            (l1.length == l2.length &&
              (List.range l1.length).all (fun i =>
                if h1 : i < l1.length then
                  if h2 : i < l2.length then pyEq l1[i] l2[i]
                  else false
                else false)) := by
          simp [pyEq]
        constructor
        · intro hall
          have hlen : l1.length = l2.length := by
            by_contra hnel
            rcases Nat.lt_or_ge l1.length l2.length with hlt | hge
            · have hb := hall l1.length (List.mem_range.2 (by omega))
              rw [dif_neg (by omega)] at hb
              simp at hb
            · have hlt2 : l2.length < l1.length := by omega
              have hb := hall l2.length (List.mem_range.2 (by omega))
              rw [dif_pos (by omega), dif_neg (by omega)] at hb
              simp at hb
          have helem : ∀ i, i < l1.length → (h2 : i < l2.length) → pyEq l1[i] l2[i] = true := by
            intro i h1 h2
            have hb := hall i (List.mem_range.2 (by omega))
            rw [dif_pos h1, dif_pos h2] at hb
            by_contra hne
            rw [if_neg hne] at hb
            have hlt : sizeOf l1[i] < sizeOf l1 :=
              List.sizeOf_lt_of_mem (List.getElem_mem h1)
            exact hne ((ih l1[i] (by omega) l2[i] (arrPath path i)).1 hb).2
          refine ⟨rfl, ?_⟩
          rw [hpyeq, Bool.and_eq_true]
          refine ⟨by simp [hlen], List.all_eq_true.2 fun i hi => ?_⟩
          rw [List.mem_range] at hi
          rw [dif_pos hi, dif_pos (by omega)]
          exact helem i hi (by omega)
        · rintro ⟨-, hpy⟩
          rw [hpyeq, Bool.and_eq_true] at hpy
          obtain ⟨hlenb, hallb⟩ := hpy
          have hlen : l1.length = l2.length := by simpa using hlenb
          intro i hi
          rw [List.mem_range] at hi
          have h1 : i < l1.length := by omega
          have h2 : i < l2.length := by omega
          rw [dif_pos h1, dif_pos h2]
          have hb := List.all_eq_true.1 hallb i (List.mem_range.2 h1)
          rw [dif_pos h1, dif_pos h2] at hb
          rw [if_pos hb]
      · -- dicts
        have hobj : sizeOf (Json.obj l1) = 1 + sizeOf l1 := by simp
        rw [find_diff_obj_eq, List.flatMap_eq_nil_iff]
        have hpyeq : pyEq (Json.obj l1) (Json.obj l2) =
            (((keysJ l1).all (fun k =>
              if h1 : (lookupJ l1 k).isSome then
                if h2 : (lookupJ l2 k).isSome then
                  pyEq ((lookupJ l1 k).get h1) ((lookupJ l2 k).get h2)
                else false
              else false))
            && (keysJ l2).all (fun k => (lookupJ l1 k).isSome)) := by
          simp [pyEq]
        constructor
        · intro hall
          refine ⟨rfl, ?_⟩
          rw [hpyeq, Bool.and_eq_true]
          constructor
          · refine List.all_eq_true.2 fun k hk => ?_
            have h1 : (lookupJ l1 k).isSome = true := lookupJ_isSome_iff.2 hk
            have hbody := hall k (mem_allKeys.2 (Or.inl hk))
            rw [dif_pos h1] at hbody ⊢
            by_cases h2 : (lookupJ l2 k).isSome = true
            · rw [dif_pos h2] at hbody ⊢
              by_cases hpe : pyEq ((lookupJ l1 k).get h1) ((lookupJ l2 k).get h2) = true
              · exact hpe
              · rw [if_neg hpe] at hbody
                have hlt : sizeOf ((lookupJ l1 k).get h1) < sizeOf l1 :=
                  sizeOf_lt_of_lookupJ (Option.some_get h1).symm
                exact absurd ((ih _ (by omega) _ _).1 hbody).2 hpe
            · rw [dif_neg h2] at hbody
              simp at hbody
          · refine List.all_eq_true.2 fun k hk => ?_
            have hbody := hall k (mem_allKeys.2 (Or.inr hk))
            by_cases h1 : (lookupJ l1 k).isSome = true
            · exact h1
            · rw [dif_neg h1] at hbody
              simp at hbody
        · rintro ⟨-, hpy⟩
          rw [hpyeq, Bool.and_eq_true] at hpy
          obtain ⟨hall1, hall2⟩ := hpy
          intro k hk
          have h1 : (lookupJ l1 k).isSome = true := by
            rcases mem_allKeys.1 hk with hm | hm
            · exact lookupJ_isSome_iff.2 hm
            · exact List.all_eq_true.1 hall2 k hm
          rw [dif_pos h1]
          have hfk := List.all_eq_true.1 hall1 k (lookupJ_isSome_iff.1 h1)
          rw [dif_pos h1] at hfk
          by_cases h2 : (lookupJ l2 k).isSome = true
          · rw [dif_pos h2] at hfk ⊢
            rw [if_pos hfk]
          · rw [dif_neg h2] at hfk
            simp at hfk
    · have heq : find_diff_in_json o1 o2 path = [path] := by
        rw [find_diff_in_json.eq_def]
        rw [if_pos htag]
      simp [heq, htag]

/-- C1 counterexample: `{"a": true}` and `{"a": 1}` are structurally
different parsed JSON values (a boolean against an integer inside the
tree), yet `find_diff_in_json` returns the empty path list, because
Python equality identifies `True` with `1` and the recursion into dict
values is guarded by `!=`. -/
theorem C1_find_diff_counterexample :
    jsonV1 ≠ jsonV2 ∧ find_diff_in_json jsonV1 jsonV2 "" = [] := by
  constructor
  · intro hcontra
    simp [jsonV1, jsonV2] at hcontra
  · simp [jsonV1, jsonV2, find_diff_in_json, allKeys, keysJ, lookupJ, pyEq, typeTag,
      keyPath]

/-- C1 (amended): `find_diff_in_json` returns the empty path list exactly
when the two values have the same runtime type at the top level and are
equal under Python equality — which identifies `True` with `1`, `False`
with `0` and numerically equal ints and floats, so structurally
different trees whose differences are only such numeric/boolean type
punning also yield the empty list; identical values always yield the
empty list. -/
theorem C1_find_diff_empty_iff :
    (∀ (o1 o2 : Json) (path : String),
      find_diff_in_json o1 o2 path = [] ↔
        typeTag o1 = typeTag o2 ∧ pyEq o1 o2 = true)
    ∧ (∀ (o : Json) (path : String), find_diff_in_json o o path = []) := by
  have hmain := fun (o1 : Json) => find_diff_eq_nil_iff_aux (sizeOf o1) o1 le_rfl
  refine ⟨fun o1 o2 path => hmain o1 o2 path, fun o path => ?_⟩
  rw [hmain o o path]
  exact ⟨rfl, pyEq_refl_aux (sizeOf o) o le_rfl⟩

theorem lookupA_isSome_of_mem_keys {β : Type} {l : List (String × β)} {k : String}
    (h : k ∈ l.map Prod.fst) : (lookupA l k).isSome = true := by
  induction l with
  | nil => simp at h
  | cons hd tl ih =>
    obtain ⟨k1, v1⟩ := hd
    by_cases hk : k1 = k
    · simp [lookupA, hk]
    · simp [lookupA, hk]
      simp at h
      rcases h with h | h
      · exact absurd h.symm hk
      · exact ih (by simpa using h)

/-- C4: when `resize_image` raises on an image, `add_image_to_sheet`
catches the exception (it is total in the model) and the workbook is
untouched; when the target sheet's row cursor is already tracked the
whole processor state is unchanged — no title cell, no image, no row
height, no cursor advance — and the processing loop simply moves on to
the remaining images. -/
theorem C4_add_image_failure_preserves_state (p : Proc) (sheet_name : String)
    (img : ImgFile) (title : Option String) (hfail : img.dims = none) :
    (add_image_to_sheet p sheet_name img title).workbook = p.workbook
    ∧ (∀ (wb : List (String × SheetData)) (actual : String),
        p.workbook = some wb →
        find_sheet_by_name wb sheet_name = some actual →
        (lookupA p.current_row actual).isSome = true →
        add_image_to_sheet p sheet_name img title = p)
    ∧ (∀ (wb : List (String × SheetData)) (actual : String)
        (rest : List (ImgFile × Option String)),
        p.workbook = some wb →
        find_sheet_by_name wb sheet_name = some actual →
        (lookupA p.current_row actual).isSome = true →
        addImagesFold p sheet_name ((img, title) :: rest) = addImagesFold p sheet_name rest) := by
  have hres : resize_image_file p img = none := by
    simp [resize_image_file, hfail]
  have hpres : ∀ (wb : List (String × SheetData)) (actual : String),
      p.workbook = some wb →
      find_sheet_by_name wb sheet_name = some actual →
      (lookupA p.current_row actual).isSome = true →
      add_image_to_sheet p sheet_name img title = p := by
    intro wb actual hwb hfs hsome
    have hmem : actual ∈ wb.map Prod.fst := List.mem_of_find?_eq_some hfs
    obtain ⟨sheet, hsheet⟩ := Option.isSome_iff_exists.1 (lookupA_isSome_of_mem_keys hmem)
    unfold add_image_to_sheet
    rw [hwb]
    simp [hfs, hsheet, hres, hsome]
  refine ⟨?_, hpres, ?_⟩
  · unfold add_image_to_sheet
    cases hwb : p.workbook with
    | none => simp [hwb]
    | some wb =>
      cases hfs : find_sheet_by_name wb sheet_name with
      | none => simp [hfs, hwb]
      | some actual =>
        cases hsheet : lookupA wb actual with
        | none => simp [hfs, hsheet, hwb]
        | some sheet =>
          simp only [hfs, hsheet, hres]
          split <;> simp [hwb]
  · intro wb actual rest hwb hfs hsome
    have h1 := hpres wb actual hwb hfs hsome
    simp only [addImagesFold, List.foldl_cons]
    rw [h1]

/-- C4 witness: an unreadable image leaves a concrete processor state
exactly as it was. -/
theorem C4_add_image_failure_witness :
    exBadImg.dims = none
    ∧ add_image_to_sheet exProc "img" exBadImg (some "1. bad") = exProc :=
  ⟨rfl,
    (C4_add_image_failure_preserves_state exProc "img" exBadImg (some "1. bad") rfl).2.1
      [("img", exSheet)] "img" rfl (by decide) (by decide)⟩

theorem scanDir_eq (path : String) (d : Dir) :
    scanDir path d =
      if pyLower d.name ∈ IGNORE_DIRS then []
      else
        (List.range (get_subdirectories d.subs).length).flatMap (fun i =>
          if h1 : i < (get_subdirectories d.subs).length then
            if pyLower ((get_subdirectories d.subs).get ⟨i, h1⟩).name ∈ IGNORE_DIRS then []
            else scanDir (path ++ "/" ++ ((get_subdirectories d.subs).get ⟨i, h1⟩).name)
              ((get_subdirectories d.subs).get ⟨i, h1⟩)
          else [])
        ++ (if !(imageFilesOf d.files).isEmpty
              && !((get_subdirectories d.subs).any (fun sub =>
                    if pyLower sub.name ∈ IGNORE_DIRS then false
                    else !(imageFilesOf sub.files).isEmpty)) then [(path, d)] else []) := by
  rw [scanDir]

theorem hasAnyImage_eq (d : Dir) :
    hasAnyImage d =
      (!(imageFilesOf d.files).isEmpty ||
        (List.range d.subs.length).any (fun i =>
          if h1 : i < d.subs.length then hasAnyImage (d.subs.get ⟨i, h1⟩) else false)) := by
  rw [hasAnyImage]

theorem sizeOf_dir_pos (d : Dir) : 1 ≤ sizeOf d := by
  cases d
  simp
  omega

theorem sizeOf_sorted_sub_lt {d : Dir} {sub : Dir}
    (h : sub ∈ get_subdirectories d.subs) : sizeOf sub < sizeOf d := by
  have h1 : sizeOf sub < sizeOf d.subs :=
    List.sizeOf_lt_of_mem (mem_get_subdirectories h)
  have h2 := sizeOf_subs_lt d
  omega

theorem scanDir_mem_images_aux :
    ∀ (n : Nat) (d : Dir), sizeOf d ≤ n → ∀ (path : String) (pd : String × Dir),
      pd ∈ scanDir path d → (imageFilesOf pd.2.files).isEmpty = false := by
  intro n
  induction n with
  | zero =>
    intro d h
    exact absurd h (by have := sizeOf_dir_pos d; omega)
  | succ n ih =>
    intro d hsize path pd hmem
    rw [scanDir_eq] at hmem
    by_cases hign : pyLower d.name ∈ IGNORE_DIRS
    · rw [if_pos hign] at hmem
      simp at hmem
    · rw [if_neg hign, List.mem_append] at hmem
      rcases hmem with hmem | hmem
      · rw [List.mem_flatMap] at hmem
        obtain ⟨i, hi, hpd⟩ := hmem
        rw [List.mem_range] at hi
        rw [dif_pos hi] at hpd
        by_cases hisub :
            pyLower ((get_subdirectories d.subs).get ⟨i, hi⟩).name ∈ IGNORE_DIRS
        · rw [if_pos hisub] at hpd
          simp at hpd
        · rw [if_neg hisub] at hpd
          have hszsub : sizeOf ((get_subdirectories d.subs).get ⟨i, hi⟩) ≤ n := by
            have := sizeOf_sorted_sub_lt (List.get_mem _ _ hi)
            omega
          exact ih _ hszsub _ _ hpd
      · by_cases hcond : (!(imageFilesOf d.files).isEmpty
              && !((get_subdirectories d.subs).any (fun sub =>
                    if pyLower sub.name ∈ IGNORE_DIRS then false
                    else !(imageFilesOf sub.files).isEmpty))) = true
        · rw [if_pos hcond] at hmem
          simp only [List.mem_singleton] at hmem
          subst hmem
          rw [Bool.and_eq_true] at hcond
          simpa using hcond.1
        · rw [if_neg hcond] at hmem
          simp at hmem

theorem scanDir_nil_of_no_image_aux :
    ∀ (n : Nat) (d : Dir), sizeOf d ≤ n → hasAnyImage d = false →
      ∀ path : String, scanDir path d = [] := by
  intro n
  induction n with
  | zero =>
    intro d h
    exact absurd h (by have := sizeOf_dir_pos d; omega)
  | succ n ih =>
    intro d hsize hno path
    rw [hasAnyImage_eq] at hno
    rw [Bool.or_eq_false_iff] at hno
    obtain ⟨hfiles, hsubs⟩ := hno
    have hfiles2 : (imageFilesOf d.files).isEmpty = true := by simpa using hfiles
    have hsubno : ∀ sub ∈ d.subs, hasAnyImage sub = false := by
      intro sub hsub
      obtain ⟨⟨j, hj⟩, hget⟩ := List.mem_iff_get.1 hsub
      have hj2 := List.any_eq_false.1 hsubs j (List.mem_range.2 hj)
      rw [dif_pos hj] at hj2
      rw [← hget]
      exact Bool.eq_false_iff.2 hj2
    rw [scanDir_eq]
    by_cases hign : pyLower d.name ∈ IGNORE_DIRS
    · rw [if_pos hign]
    · rw [if_neg hign]
      have hflat :
          (List.range (get_subdirectories d.subs).length).flatMap (fun i =>
            if h1 : i < (get_subdirectories d.subs).length then
              if pyLower ((get_subdirectories d.subs).get ⟨i, h1⟩).name ∈ IGNORE_DIRS then []
              else scanDir (path ++ "/" ++ ((get_subdirectories d.subs).get ⟨i, h1⟩).name)
                ((get_subdirectories d.subs).get ⟨i, h1⟩)
            else []) = [] := by
        rw [List.flatMap_eq_nil_iff]
        intro i hi
        rw [List.mem_range] at hi
        rw [dif_pos hi]
        by_cases hisub :
            pyLower ((get_subdirectories d.subs).get ⟨i, hi⟩).name ∈ IGNORE_DIRS
        · rw [if_pos hisub]
        · rw [if_neg hisub]
          have hmem : (get_subdirectories d.subs).get ⟨i, hi⟩ ∈ get_subdirectories d.subs :=
            List.get_mem _ _ hi
          have hsz : sizeOf ((get_subdirectories d.subs).get ⟨i, hi⟩) ≤ n := by
            have := sizeOf_sorted_sub_lt hmem
            omega
          exact ih _ hsz (hsubno _ (mem_get_subdirectories hmem)) _
      rw [hflat]
      rw [if_neg (by simp [hfiles2])]
      rfl

theorem foldl_sheet_mono :
    ∀ (names : List String) (acc : List String) (s : String),
      s ∈ acc → s ∈ names.foldl get_or_create_sheet_names acc := by
  intro names
  induction names with
  | nil => intro acc s h; simpa using h
  | cons nm rest ih =>
    intro acc s h
    simp only [List.foldl_cons]
    apply ih
    simp only [get_or_create_sheet_names]
    split
    · exact h
    · exact List.mem_append_left _ h

theorem foldl_sheet_pairwise :
    ∀ (names : List String) (acc : List String),
      acc.Pairwise (fun a b => pyLower a ≠ pyLower b) →
      (names.foldl get_or_create_sheet_names acc).Pairwise (fun a b => pyLower a ≠ pyLower b) := by
  intro names
  induction names with
  | nil => intro acc h; simpa using h
  | cons nm rest ih =>
    intro acc h
    simp only [List.foldl_cons]
    apply ih
    simp only [get_or_create_sheet_names]
    by_cases hany : (acc.any (fun s =>
        pyLower s == pyLower (sanitize_sheet_name nm))) = true
    · rw [if_pos hany]
      exact h
    · rw [if_neg hany]
      rw [List.pairwise_append]
      refine ⟨h, by simp, ?_⟩
      have hall : ∀ x ∈ acc, ¬ pyLower x = pyLower (sanitize_sheet_name nm) := by
        simpa using hany
      intro a ha b hb
      simp only [List.mem_singleton] at hb
      subst hb
      exact hall a ha

theorem foldl_sheet_subset :
    ∀ (names : List String) (acc : List String) (s : String),
      s ∈ names.foldl get_or_create_sheet_names acc →
      s ∈ acc ∨ ∃ nm ∈ names, s = sanitize_sheet_name nm := by
  intro names
  induction names with
  | nil => intro acc s h; exact Or.inl (by simpa using h)
  | cons nm rest ih =>
    intro acc s h
    simp only [List.foldl_cons] at h
    rcases ih _ s h with hacc | ⟨nm2, hnm2, hs⟩
    · simp only [get_or_create_sheet_names] at hacc
      split at hacc
      · exact Or.inl hacc
      · rw [List.mem_append] at hacc
        rcases hacc with hacc | hacc
        · exact Or.inl hacc
        · simp only [List.mem_singleton] at hacc
          exact Or.inr ⟨nm, List.mem_cons_self nm rest, hacc⟩
    · exact Or.inr ⟨nm2, List.mem_cons_of_mem nm hnm2, hs⟩

theorem foldl_sheet_covers :
    ∀ (names : List String) (acc : List String) (nm : String),
      nm ∈ names →
      ∃ s ∈ names.foldl get_or_create_sheet_names acc,
        pyLower s = pyLower (sanitize_sheet_name nm) := by
  intro names
  induction names with
  | nil => intro acc nm h; simp at h
  | cons hd rest ih =>
    intro acc nm hmem
    rcases List.mem_cons.1 hmem with rfl | hmem2
    · simp only [List.foldl_cons]
      have hstep : ∃ s ∈ get_or_create_sheet_names acc nm,
          pyLower s = pyLower (sanitize_sheet_name nm) := by
        simp only [get_or_create_sheet_names]
        by_cases hany : (acc.any (fun s =>
            pyLower s == pyLower (sanitize_sheet_name nm))) = true
        · rw [if_pos hany]
          obtain ⟨s, hs, hbeq⟩ := List.any_eq_true.1 hany
          exact ⟨s, hs, by simpa using hbeq⟩
        · rw [if_neg hany]
          exact ⟨sanitize_sheet_name nm, List.mem_append_right _ (by simp), rfl⟩
      obtain ⟨s, hs, heq⟩ := hstep
      exact ⟨s, foldl_sheet_mono rest _ s hs, heq⟩
    · simp only [List.foldl_cons]
      exact ih _ nm hmem2

theorem total_images_foldl_ge :
    ∀ (l : List (String × Dir)) (a : Nat),
      a ≤ l.foldl (fun n pd => n + (imageFilesOf pd.2.files).length) a := by
  intro l
  induction l with
  | nil => intro a; simp
  | cons pd rest ih =>
    intro a
    simp only [List.foldl_cons]
    calc a ≤ a + (imageFilesOf pd.2.files).length := Nat.le_add_right _ _
      _ ≤ _ := ih _

theorem total_images_pos {l : List (String × Dir)}
    (himgs : ∀ pd ∈ l, (imageFilesOf pd.2.files).isEmpty = false)
    (hne : l ≠ []) : total_images l ≠ 0 := by
  cases l with
  | nil => exact absurd rfl hne
  | cons pd rest =>
    unfold total_images
    simp only [List.foldl_cons, Nat.zero_add]
    have h1 : (imageFilesOf pd.2.files).isEmpty = false :=
      himgs pd (List.mem_cons_self pd rest)
    have h2 : 0 < (imageFilesOf pd.2.files).length := by
      cases hfi : imageFilesOf pd.2.files with
      | nil => rw [hfi] at h1; simp at h1
      | cons x xs => simp [hfi]
    have h3 := total_images_foldl_ge rest (imageFilesOf pd.2.files).length
    omega

theorem processImageFolders_foldl_eq :
    ∀ (l : List (String × Dir)) (acc : List String),
      (∀ pd ∈ l, (imageFilesOf pd.2.files).isEmpty = false) →
      l.foldl (fun sheets pd =>
        if (imageFilesOf pd.2.files).isEmpty then sheets
        else get_or_create_sheet_names sheets pd.2.name) acc
      = l.foldl (fun sheets pd => get_or_create_sheet_names sheets pd.2.name) acc := by
  intro l
  induction l with
  | nil => intro acc _; rfl
  | cons pd rest ih =>
    intro acc h
    simp only [List.foldl_cons]
    rw [if_neg (by simp [h pd (List.mem_cons_self pd rest)])]
    exact ih _ (fun q hq => h q (List.mem_cons_of_mem pd hq))

theorem processImageFolders_eq_dedup {l : List (String × Dir)}
    (himgs : ∀ pd ∈ l, (imageFilesOf pd.2.files).isEmpty = false) :
    processImageFolders l = dedupSheetNames (l.map (fun pd => pd.2.name)) := by
  unfold processImageFolders dedupSheetNames
  rw [List.foldl_map]
  exact processImageFolders_foldl_eq l [] himgs

/-- C3 (amended): on a fresh workbook (default sheet removed), processing
creates one worksheet per distinct — case-insensitively compared,
sanitized — folder name among the folders `find_image_folders` returns
(the folders that directly contain images while none of their
non-ignored immediate subdirectories do); each worksheet is named by the
sanitized name of such a folder, folders sharing a name share one
worksheet, and a tree without any image file yields zero worksheets. -/
theorem C3_excel_sheets (root : Dir) :
    excelWorkbookSheets root =
      dedupSheetNames ((find_image_folders root).map (fun pd => pd.2.name))
    ∧ (excelWorkbookSheets root).Pairwise (fun a b => pyLower a ≠ pyLower b)
    ∧ (∀ pd ∈ find_image_folders root, ∃ s ∈ excelWorkbookSheets root,
        pyLower s = pyLower (sanitize_sheet_name pd.2.name))
    ∧ (∀ s ∈ excelWorkbookSheets root, ∃ pd ∈ find_image_folders root,
        s = sanitize_sheet_name pd.2.name)
    ∧ (hasAnyImage root = false → excelWorkbookSheets root = []) := by
  have hperm : ∀ pd : String × Dir,
      pd ∈ find_image_folders root ↔ pd ∈ scanDir root.name root :=
    fun pd => (List.perm_insertionSort _ _).mem_iff
  have himgs : ∀ pd ∈ find_image_folders root,
      (imageFilesOf pd.2.files).isEmpty = false :=
    fun pd h =>
      scanDir_mem_images_aux (sizeOf root) root le_rfl root.name pd ((hperm pd).1 h)
  have hmain : excelWorkbookSheets root =
      dedupSheetNames ((find_image_folders root).map (fun pd => pd.2.name)) := by
    simp only [excelWorkbookSheets]
    by_cases hempty : (find_image_folders root).isEmpty = true
    · rw [if_pos hempty]
      have hnil : find_image_folders root = [] := List.isEmpty_iff.1 hempty
      rw [hnil]
      rfl
    · rw [if_neg hempty]
      have hne : find_image_folders root ≠ [] := by
        intro hcontra
        rw [hcontra] at hempty
        simp at hempty
      rw [if_neg (total_images_pos himgs hne)]
      exact processImageFolders_eq_dedup himgs
  refine ⟨hmain, ?_, ?_, ?_, ?_⟩
  · rw [hmain]
    exact foldl_sheet_pairwise _ [] (by simp)
  · intro pd hpd
    rw [hmain]
    exact foldl_sheet_covers _ [] pd.2.name (List.mem_map_of_mem _ hpd)
  · intro s hs
    rw [hmain] at hs
    rcases foldl_sheet_subset _ [] s hs with hnil | ⟨nm, hnm, hsnm⟩
    · simp at hnil
    · obtain ⟨pd, hpd, hname⟩ := List.mem_map.1 hnm
      exact ⟨pd, hpd, by rw [hsnm, ← hname]⟩
  · intro hno
    have hscan : scanDir root.name root = [] :=
      scanDir_nil_of_no_image_aux (sizeOf root) root le_rfl hno root.name
    have hfold : find_image_folders root = [] := by
      unfold find_image_folders
      rw [hscan]
      rfl
    simp only [excelWorkbookSheets, hfold]
    rfl

theorem scanDirFuel_eq :
    ∀ (n : Nat) (d : Dir), sizeOf d ≤ n → ∀ path : String,
      scanDirFuel n path d = scanDir path d := by
  intro n
  induction n with
  | zero =>
    intro d h
    exact absurd h (by have := sizeOf_dir_pos d; omega)
  | succ n ih =>
    intro d hsize path
    rw [scanDir_eq]
    simp only [scanDirFuel]
    by_cases hign : pyLower d.name ∈ IGNORE_DIRS
    · rw [if_pos hign, if_pos hign]
    · rw [if_neg hign, if_neg hign]
      congr 1
      congr 1
      funext i
      by_cases h1 : i < (get_subdirectories d.subs).length
      · rw [dif_pos h1, dif_pos h1]
        by_cases h2 : pyLower ((get_subdirectories d.subs).get ⟨i, h1⟩).name ∈ IGNORE_DIRS
        · rw [if_pos h2, if_pos h2]
        · rw [if_neg h2, if_neg h2]
          have hsz : sizeOf ((get_subdirectories d.subs).get ⟨i, h1⟩) ≤ n := by
            have := sizeOf_sorted_sub_lt (List.get_mem _ _ h1)
            omega
          exact ih _ hsz _
      · rw [dif_neg h1, dif_neg h1]

theorem hasAnyImageFuel_eq :
    ∀ (n : Nat) (d : Dir), sizeOf d ≤ n → hasAnyImageFuel n d = hasAnyImage d := by
  intro n
  induction n with
  | zero =>
    intro d h
    exact absurd h (by have := sizeOf_dir_pos d; omega)
  | succ n ih =>
    intro d hsize
    rw [hasAnyImage_eq]
    simp only [hasAnyImageFuel]
    congr 1
    congr 1
    funext i
    by_cases h1 : i < d.subs.length
    · rw [dif_pos h1, dif_pos h1]
      have hsz : sizeOf (d.subs.get ⟨i, h1⟩) ≤ n := by
        have h2 : sizeOf (d.subs.get ⟨i, h1⟩) < sizeOf d.subs :=
          List.sizeOf_lt_of_mem (List.get_mem _ _ h1)
        have h3 := sizeOf_subs_lt d
        omega
      exact ih _ hsz
    · rw [dif_neg h1, dif_neg h1]

theorem exTree_folders :
    find_image_folders exTree =
      [("r/a/img", Dir.mk "img" ["x.png"] []), ("r/b/img", Dir.mk "img" ["y.png"] [])] := by
  unfold find_image_folders
  rw [show exTree.name = "r" from rfl]
  rw [← scanDirFuel_eq 1000000 exTree (by decide) "r"]
  rfl

/-- C3 counterexample: the tree `r/{a/img, b/img}` has two leaf folders
that directly contain image files, both named `img`, but processing
creates a single worksheet `img` — not one worksheet per leaf folder. -/
theorem C3_sheets_counterexample :
    (find_image_folders exTree).map Prod.fst = ["r/a/img", "r/b/img"]
    ∧ (find_image_folders exTree).map (fun pd => pd.2.name) = ["img", "img"]
    ∧ (find_image_folders exTree).map (fun pd => pd.2.subs) = [[], []]
    ∧ (find_image_folders exTree).map (fun pd => imageFilesOf pd.2.files)
        = [["x.png"], ["y.png"]]
    ∧ excelWorkbookSheets exTree = ["img"] := by
  have hf := exTree_folders
  refine ⟨by rw [hf]; rfl, by rw [hf]; rfl, by rw [hf]; rfl, by rw [hf]; rfl, ?_⟩
  simp only [excelWorkbookSheets, hf]
  rfl

/-- C3 witness: a concrete image folder yields a matching worksheet, and
a tree without images yields a workbook with zero worksheets. -/
theorem C3_excel_sheets_witness :
    (∃ s ∈ excelWorkbookSheets exTree,
      pyLower s = pyLower (sanitize_sheet_name (Dir.mk "img" ["x.png"] []).name))
    ∧ hasAnyImage exEmptyTree = false
    ∧ excelWorkbookSheets exEmptyTree = [] := by
  have hpd : ("r/a/img", Dir.mk "img" ["x.png"] []) ∈ find_image_folders exTree := by
    rw [exTree_folders]
    exact List.mem_cons_self _ _
  have hno : hasAnyImage exEmptyTree = false := by
    rw [← hasAnyImageFuel_eq 1000000 exEmptyTree (by decide)]
    rfl
  exact ⟨(C3_excel_sheets exTree).2.2.1 _ hpd, hno,
    (C3_excel_sheets exEmptyTree).2.2.2.2 hno⟩

end AiPortal
